import Mathlib

/-!
# go-social-login: the session lifecycle of `main.go`

A shallow embedding of the session code of `main.go` (`handleCallback`,
`handleLogout`, `getUser`) together with the library collaborators it talks
to: `encoding/json` for the `User` record, `fmt.Sprintf("%d", ...)` for the
session identifier, and the Redis key-value store with a time-to-live on
each key.

What the environment decides is an input of the handlers: the readings of
the clock, the answers of the identity provider, the clock of the store and
the error a store command reports.

* Go strings held in a `User` come out of `json.Decode` (line 118), which
  only yields valid UTF-8; they are modelled as sequences of Unicode code
  points.
* A store command that reports an error has not been applied. The program
  discards the result of `Del` (line 144): `handleLogout` goes on in the
  same way whether the `Del` was executed or not.
* Of a response, the status, the text passed to `http.Error`, the cookies
  and the redirect target are modelled; the body that `http.Redirect`
  writes by itself is not.
-/

set_option autoImplicit false

namespace SocialLogin

/-! ## Characters used by the JSON text format -/

/-- The double quote, byte 0x22. -/
def dquote : Char := Char.ofNat 34

/-- The backslash, byte 0x5c. -/
def backslash : Char := Char.ofNat 92

/-- The slash, byte 0x2f. -/
def slash : Char := Char.ofNat 47

/-- The opening brace, byte 0x7b. -/
def lbrace : Char := Char.ofNat 123

/-- The closing brace, byte 0x7d. -/
def rbrace : Char := Char.ofNat 125

/-- The opening bracket, byte 0x5b. -/
def lbracket : Char := Char.ofNat 91

/-- The closing bracket, byte 0x5d. -/
def rbracket : Char := Char.ofNat 93

/-- The colon, byte 0x3a. -/
def colon : Char := Char.ofNat 58

/-- The comma, byte 0x2c. -/
def comma : Char := Char.ofNat 44

/-- The minus sign, byte 0x2d. -/
def minus : Char := Char.ofNat 45

/-- The replacement character U+FFFD (`unicode.ReplacementChar`). -/
def replacementChar : Char := Char.ofNat 0xFFFD

/-! ## `encoding/json`: writing a string (`appendString`, HTML escaping on) -/

/-- The table `hex = "0123456789abcdef"` of `encoding/json`. -/
def hex (n : Nat) : Char :=
  if n < 10 then Char.ofNat (48 + n) else Char.ofNat (87 + n)

/-- The escape of one code point as `appendString` writes it with
`escapeHTML = true`, the setting of `json.Marshal`. (Go before 1.22 writes
U+0008 and U+000C as `\u0008` and `\u000c`; `unquote` reads both forms
back to the same character.) -/
def escapeChar (c : Char) : List Char :=
  if c = dquote then [backslash, dquote]
  else if c = backslash then [backslash, backslash]
  else if c.toNat = 8 then [backslash, 'b']
  else if c.toNat = 12 then [backslash, 'f']
  else if c.toNat = 10 then [backslash, 'n']
  else if c.toNat = 13 then [backslash, 'r']
  else if c.toNat = 9 then [backslash, 't']
  else if c.toNat < 32 ∨ c.toNat = 60 ∨ c.toNat = 62 ∨ c.toNat = 38 then
    [backslash, 'u', '0', '0', hex (c.toNat / 16), hex (c.toNat % 16)]
  else if c.toNat = 0x2028 ∨ c.toNat = 0x2029 then
    [backslash, 'u', '2', '0', '2', hex (c.toNat % 16)]
  else [c]

/-- The quoted JSON form of a string: `appendString`. -/
def appendString (s : List Char) : List Char :=
  dquote :: (s.flatMap escapeChar ++ [dquote])

/-! ## `encoding/json`: reading a string (`unquote` behind the scanner) -/

/-- The value of one hexadecimal digit, as in `getu4`. -/
def hexVal (c : Char) : Option Nat :=
  if 48 ≤ c.toNat ∧ c.toNat ≤ 57 then some (c.toNat - 48)
  else if 97 ≤ c.toNat ∧ c.toNat ≤ 102 then some (c.toNat - 87)
  else if 65 ≤ c.toNat ∧ c.toNat ≤ 70 then some (c.toNat - 55)
  else none

/-- The number written by four hexadecimal digits: `getu4` past `\u`. -/
def getu4 (a b c d : Char) : Option Nat :=
  match hexVal a, hexVal b, hexVal c, hexVal d with
  | some x, some y, some z, some w => some (((x * 16 + y) * 16 + z) * 16 + w)
  | _, _, _, _ => none

/-- `utf16.IsSurrogate`. -/
def isSurrogate (r : Nat) : Bool := 0xD800 ≤ r && r < 0xE000

/-- `utf16.DecodeRune`: the code point of a surrogate pair, `none` where Go
returns the replacement character. -/
def decodeSurrogates (r1 r2 : Nat) : Option Char :=
  if 0xD800 ≤ r1 ∧ r1 < 0xDC00 ∧ 0xDC00 ≤ r2 ∧ r2 < 0xE000 then
    some (Char.ofNat ((r1 - 0xD800) * 0x400 + (r2 - 0xDC00) + 0x10000))
  else none

/-- The character of a one-letter escape (`\n`, `\t`, ...) as the scanner
accepts it. -/
def simpleEscape (e : Char) : Option Char :=
  if e = dquote then some dquote
  else if e = backslash then some backslash
  else if e = slash then some slash
  else if e = 'b' then some (Char.ofNat 8)
  else if e = 'f' then some (Char.ofNat 12)
  else if e = 'n' then some (Char.ofNat 10)
  else if e = 'r' then some (Char.ofNat 13)
  else if e = 't' then some (Char.ofNat 9)
  else none

/-- Put a decoded character in front of the rest of a decoded string. -/
def consChar (c : Char) : Option (List Char × List Char) → Option (List Char × List Char)
  | some (s, rest) => some (c :: s, rest)
  | none => none

/-- The code point completed by the escape `\uXXXX` that the input starts
with, when that escape is the low half matching the high surrogate `rr`:
`utf16.DecodeRune(rr, getu4(s[r:]))`. -/
def pairAt (rr : Nat) : List Char → Option Char
  | b1 :: u1 :: a1 :: b2 :: c1 :: d1 :: _ =>
    if b1 = backslash ∧ u1 = 'u' then
      match getu4 a1 b2 c1 d1 with
      | some rr1 => decodeSurrogates rr rr1
      | none => none
    else none
  | _ => none

/-- One step of the loop of `unquote` at a character `c` that is not the
closing quote, with `rest` the input after it: the character decoded and
the number of characters of `rest` that belong to it. A control character
or a bad escape is a syntax error (`none`). -/
def readChar (c : Char) (rest : List Char) : Option (Char × Nat) :=
  if c = backslash then
    match rest with
    | [] => none
    | e :: rest1 =>
      if e = 'u' then
        match rest1 with
        | a :: b :: c2 :: d :: rest2 =>
          match getu4 a b c2 d with
          | none => none
          | some rr =>
            if isSurrogate rr then
              match pairAt rr rest2 with
              | some ch => some (ch, 11)
              | none => some (replacementChar, 5)
            else some (Char.ofNat rr, 5)
        | _ => none
      else
        match simpleEscape e with
        | some ch => some (ch, 1)
        | none => none
  else if c.toNat < 32 then none
  else some (c, 0)

/-- Read a string literal whose opening quote has been consumed, after
skipping `skip` characters that belong to the escape just decoded: the
decoded text and the input after the closing quote; `none` is a syntax
error (also the end of the input before the closing quote). -/
def unquoteFrom : Nat → List Char → Option (List Char × List Char)
  | _, [] => none
  | skip + 1, _ :: rest => unquoteFrom skip rest
  | 0, c :: rest =>
    if c = dquote then some ([], rest)
    else
      match readChar c rest with
      | none => none
      | some (ch, extra) => consChar ch (unquoteFrom extra rest)

/-- Read a string literal whose opening quote has been consumed. -/
def unquote (cs : List Char) : Option (List Char × List Char) :=
  unquoteFrom 0 cs

/-! ## `encoding/json`: values -/

/-- A JSON value as the decoder sees it. The text of a number is not kept:
no field of `User` can hold one. -/
inductive JValue where
  | null
  | bool (b : Bool)
  | number
  | string (s : List Char)
  | array (elems : List JValue)
  | object (members : List (List Char × JValue))

/-- `isSpace` of the scanner: space, tab, carriage return, line feed. -/
def isSpace (c : Char) : Bool :=
  c.toNat = 32 || c.toNat = 9 || c.toNat = 13 || c.toNat = 10

/-- Skip the white space the scanner allows between tokens. -/
def skipSpace : List Char → List Char
  | [] => []
  | c :: rest => if isSpace c then skipSpace rest else c :: rest

/-- A decimal digit. -/
def isDigit (c : Char) : Bool := 48 ≤ c.toNat && c.toNat ≤ 57

/-- Skip a run of decimal digits. -/
def skipDigits : List Char → List Char
  | [] => []
  | c :: rest => if isDigit c then skipDigits rest else c :: rest

/-- Skip at least one decimal digit. -/
def skipDigits1 : List Char → Option (List Char)
  | [] => none
  | c :: rest => if isDigit c then some (skipDigits rest) else none

/-- The exponent part of a number, if there is one. -/
def scanExp : List Char → Option (List Char)
  | [] => some []
  | c :: rest =>
    if c = 'e' ∨ c = 'E' then
      match rest with
      | [] => none
      | s :: rest1 =>
        if s.toNat = 43 ∨ s = minus then skipDigits1 rest1 else skipDigits1 (s :: rest1)
    else some (c :: rest)

/-- The fraction and exponent parts of a number, if there are any. -/
def scanFrac : List Char → Option (List Char)
  | [] => some []
  | c :: rest =>
    if c.toNat = 46 then
      match skipDigits1 rest with
      | some rest1 => scanExp rest1
      | none => none
    else scanExp (c :: rest)

/-- The integer part of a number and what follows: `0`, or a digit from 1
to 9 and more digits. -/
def scanInt : List Char → Option (List Char)
  | [] => none
  | c :: rest =>
    if c = '0' then scanFrac rest
    else if isDigit c then scanFrac (skipDigits rest)
    else none

/-- Scan a number literal; the input after it. -/
def scanNumber : List Char → Option (List Char)
  | [] => none
  | c :: rest => if c = minus then scanInt rest else scanInt (c :: rest)

/-- The nesting limit of the scanner (`maxNestingDepth`). -/
def maxNestingDepth : Nat := 10000

/-- Scan one of the literals `true`, `false`, `null`. -/
def scanLiteral : List Char → Option (JValue × List Char)
  | 't' :: 'r' :: 'u' :: 'e' :: rest => some (JValue.bool true, rest)
  | 'f' :: 'a' :: 'l' :: 's' :: 'e' :: rest => some (JValue.bool false, rest)
  | 'n' :: 'u' :: 'l' :: 'l' :: rest => some (JValue.null, rest)
  | _ => none

mutual
/-- Parse one value at the head of the input (white space already
skipped), `depth` containers deep. The first argument bounds the number of
nested calls; `Unmarshal` passes twice the length of the input and one,
which no parse can use up. -/
def parseValue : Nat → Nat → List Char → Option (JValue × List Char)
  | 0, _, _ => none
  | _ + 1, _, [] => none
  | fuel + 1, depth, c :: rest =>
    if c = lbrace then
      if maxNestingDepth ≤ depth then none
      else
        match skipSpace rest with
        | [] => none
        | c1 :: rest1 =>
          if c1 = rbrace then some (JValue.object [], rest1)
          else
            match parseMembers fuel (depth + 1) (c1 :: rest1) with
            | some (ms, r) => some (JValue.object ms, r)
            | none => none
    else if c = lbracket then
      if maxNestingDepth ≤ depth then none
      else
        match skipSpace rest with
        | [] => none
        | c1 :: rest1 =>
          if c1 = rbracket then some (JValue.array [], rest1)
          else
            match parseElements fuel (depth + 1) (c1 :: rest1) with
            | some (es, r) => some (JValue.array es, r)
            | none => none
    else if c = dquote then
      match unquote rest with
      | some (str, r) => some (JValue.string str, r)
      | none => none
    else if c = minus ∨ isDigit c then
      match scanNumber (c :: rest) with
      | some r => some (JValue.number, r)
      | none => none
    else scanLiteral (c :: rest)
/-- Parse the members of an object from its first key on, up to and with
the closing brace. -/
def parseMembers : Nat → Nat → List Char → Option (List (List Char × JValue) × List Char)
  | 0, _, _ => none
  | _ + 1, _, [] => none
  | fuel + 1, depth, c :: rest =>
    if c = dquote then
      match unquote rest with
      | none => none
      | some (key, r1) =>
        match skipSpace r1 with
        | [] => none
        | c2 :: r2 =>
          if c2 = colon then
            match parseValue fuel depth (skipSpace r2) with
            | none => none
            | some (v, r3) =>
              match skipSpace r3 with
              | [] => none
              | c4 :: r4 =>
                if c4 = comma then
                  match parseMembers fuel depth (skipSpace r4) with
                  | some (ms, r5) => some ((key, v) :: ms, r5)
                  | none => none
                else if c4 = rbrace then some ([(key, v)], r4)
                else none
          else none
    else none
/-- Parse the elements of an array from its first element on, up to and
with the closing bracket. -/
def parseElements : Nat → Nat → List Char → Option (List JValue × List Char)
  | 0, _, _ => none
  | fuel + 1, depth, cs =>
    match parseValue fuel depth cs with
    | none => none
    | some (v, r3) =>
      match skipSpace r3 with
      | [] => none
      | c4 :: r4 =>
        if c4 = comma then
          match parseElements fuel depth (skipSpace r4) with
          | some (es, r5) => some (v :: es, r5)
          | none => none
        else if c4 = rbracket then some ([v], r4)
        else none
end

/-! ## The `User` record and its JSON form -/

/-- The record `User` of `main.go`: a Google user. -/
structure User where
  /-- Field `Email`, JSON name `email`. -/
  Email : String
  /-- Field `Name`, JSON name `name`. -/
  Name : String
  /-- Field `Pic`, JSON name `picture`. -/
  Pic : String
  deriving DecidableEq, Repr

/-- The zero value `User{}`. -/
def User.zero : User := ⟨"", "", ""⟩

/-- The errors of `json.Unmarshal`. -/
inductive JsonError where
  /-- The input is not valid JSON (`*json.SyntaxError`). -/
  | SyntaxError
  /-- A JSON value of kind `value` cannot be stored in the Go value named
  `target` (`*json.UnmarshalTypeError`). -/
  | UnmarshalTypeError (value : String) (target : String)
  deriving DecidableEq, Repr

/-- The fields of `User`. -/
inductive Field where
  | Email
  | Name
  | Pic
  deriving DecidableEq, Repr

/-- The JSON name of a field, from its struct tag. -/
def Field.jsonName : Field → String
  | Field.Email => "email"
  | Field.Name => "name"
  | Field.Pic => "picture"

/-- `json.Marshal(user)`: the object with the three fields in declaration
order, each name and each value written by `appendString`. It cannot fail
for this record. -/
def Marshal (u : User) : List Char :=
  lbrace :: (appendString Field.Email.jsonName.toList ++ colon ::
    (appendString u.Email.toList ++ comma ::
    (appendString Field.Name.jsonName.toList ++ colon ::
    (appendString u.Name.toList ++ comma ::
    (appendString Field.Pic.jsonName.toList ++ colon ::
    (appendString u.Pic.toList ++ [rbrace]))))))

/-- Fold one letter of a key: an ASCII lower-case letter becomes upper
case. No other character is equal under Unicode simple folding to a letter
of `email`, `name` or `picture`. -/
def foldChar (c : Char) : Char :=
  if 97 ≤ c.toNat ∧ c.toNat ≤ 122 then Char.ofNat (c.toNat - 32) else c

/-- `foldName`: the key with its letters folded. -/
def foldName (key : List Char) : List Char := key.map foldChar

/-- The field a key of the object names: the field with exactly that JSON
name, else the field whose name is equal to the key when case is ignored
(`byExactName`, then `byFoldedName`). -/
def fieldByName (key : List Char) : Option Field :=
  match [Field.Email, Field.Name, Field.Pic].find? (fun f => f.jsonName.toList = key) with
  | some f => some f
  | none =>
    [Field.Email, Field.Name, Field.Pic].find?
      (fun f => foldName f.jsonName.toList = foldName key)

/-- Store a string in a field. -/
def User.set (u : User) (f : Field) (s : String) : User :=
  match f with
  | Field.Email => { u with Email := s }
  | Field.Name => { u with Name := s }
  | Field.Pic => { u with Pic := s }

/-- The kind of a value that is not a string, as the type error of the
decoder names it; `none` for a string and for `null`. -/
def JValue.mismatch : JValue → Option String
  | JValue.null => none
  | JValue.string _ => none
  | JValue.bool _ => some "bool"
  | JValue.number => some "number"
  | JValue.array _ => some "array"
  | JValue.object _ => some "object"

/-- `saveError`: the decoder keeps the first error and goes on. -/
def saveError (saved : Option JsonError) (e : JsonError) : Option JsonError :=
  match saved with
  | some e0 => some e0
  | none => some e

/-- Decode one member of the object into the record: a key that names no
field is skipped; a string is stored in the field; `null` leaves the field
as it is; every other value is a type error, and the decoder goes on. -/
def storeMember (acc : User × Option JsonError) (kv : List Char × JValue) :
    User × Option JsonError :=
  match fieldByName kv.1 with
  | none => acc
  | some f =>
    match kv.2 with
    | JValue.string str => (acc.1.set f (String.mk str), acc.2)
    | JValue.null => acc
    | v =>
      match v.mismatch with
      | some kind =>
        (acc.1, saveError acc.2 (JsonError.UnmarshalTypeError kind ("User." ++ f.jsonName)))
      | none => acc

/-- Decode a value into a `User` variable holding `u`: an object is decoded
member by member, `null` changes nothing, every other value is a type
error. -/
def decodeValue (v : JValue) (u : User) : User × Option JsonError :=
  match v with
  | JValue.object ms => ms.foldl storeMember (u, none)
  | JValue.null => (u, none)
  | JValue.string _ => (u, some (JsonError.UnmarshalTypeError "string" "User"))
  | w =>
    match w.mismatch with
    | some kind => (u, some (JsonError.UnmarshalTypeError kind "User"))
    | none => (u, none)

/-- `json.Unmarshal(data, &user)` with `user` holding `u`: the record after
the call and the error returned. The whole input is checked first
(`checkValid`): one value, white space around it and nothing else; on a
syntax error the record is not touched. -/
def Unmarshal (data : List Char) (u : User) : User × Option JsonError :=
  match parseValue (2 * data.length + 1) 0 (skipSpace data) with
  | none => (u, some JsonError.SyntaxError)
  | some (v, rest) =>
    match skipSpace rest with
    | [] => decodeValue v u
    | _ :: _ => (u, some JsonError.SyntaxError)

/-- `json.NewDecoder(body).Decode(&user)` with `user` holding `u`: the
first value of the stream is decoded; what follows it is left unread. -/
def Decode (body : List Char) (u : User) : User × Option JsonError :=
  match parseValue (2 * body.length + 1) 0 (skipSpace body) with
  | none => (u, some JsonError.SyntaxError)
  | some (v, _) => decodeValue v u

/-! ## `fmt.Sprintf("%d", n)` -/

/-- The loop of `fmtInteger` for base 10: the digits of `u` are written
from the last one backwards, in front of what the buffer holds. The first
argument bounds the number of rounds; `u` itself is enough. -/
def fmtDigits : Nat → Nat → List Char → List Char
  | 0, u, buf => Char.ofNat (48 + u) :: buf
  | fuel + 1, u, buf =>
    if 10 ≤ u then fmtDigits fuel (u / 10) (Char.ofNat (48 + (u - u / 10 * 10)) :: buf)
    else Char.ofNat (48 + u) :: buf

/-- `fmt.Sprintf("%d", n)` for a signed integer: a minus sign for a
negative number, then the decimal digits of its magnitude. -/
def Sprintf_d (n : Int) : List Char :=
  if n < 0 then minus :: fmtDigits n.natAbs n.natAbs []
  else fmtDigits n.natAbs n.natAbs []

/-- The number a run of decimal digits denotes, read after `acc`; `none`
when a character is not a digit. -/
def digitsValue : Nat → List Char → Option Nat
  | acc, [] => some acc
  | acc, c :: rest =>
    if isDigit c then digitsValue (acc * 10 + (c.toNat - 48)) rest else none

/-- The integer a decimal numeral denotes: an optional minus sign and at
least one digit. -/
def intValue : List Char → Option Int
  | [] => none
  | c :: rest =>
    if c = minus then
      match rest with
      | [] => none
      | _ :: _ =>
        match digitsValue 0 rest with
        | some v => some (- Int.ofNat v)
        | none => none
    else
      match digitsValue 0 (c :: rest) with
      | some v => some (Int.ofNat v)
      | none => none

/-! ## The Redis store

A key-value store with a time-to-live on each key. Every command takes the
outcome the client reports as an input, and a command that reports an error
has not been applied. The program inspects the outcome of `Set` (line 127)
and of `Get` (lines 161-166) and discards that of `Del` (line 144). Times
are nanoseconds on the clock of the store. -/

/-- One key of the store: its value and the instant its time-to-live ends. -/
structure Entry where
  key : String
  value : String
  expiresAt : Int
  deriving DecidableEq, Repr

/-- The state of the store. -/
abbrev Store := List Entry

/-- The circumstances of one command: the clock of the store when it runs,
and the error the client reports, if any. -/
structure Call where
  time : Int
  fault : Option String
  deriving DecidableEq, Repr

/-- The outcome of `redisClient.Get(ctx, key).Result()`. -/
inductive GetResult where
  /-- The value of the key, `err == nil`. -/
  | value (v : String)
  /-- The key does not exist, `err == redis.Nil`. -/
  | Nil
  /-- Any other error. -/
  | error (msg : String)
  deriving DecidableEq, Repr

/-- The entry stored under a key, if any. -/
def Store.lookup (st : Store) (key : String) : Option Entry :=
  st.find? (fun e => e.key = key)

/-- The value a key resolves to at an instant: the key is gone once the
instant is past the end of its time-to-live. -/
def Store.resolve (st : Store) (key : String) (now : Int) : Option String :=
  match st.lookup key with
  | some e => if e.expiresAt < now then none else some e.value
  | none => none

/-- The store without a key. -/
def Store.unset (st : Store) (key : String) : Store :=
  st.filter (fun e => e.key ≠ key)

/-- The command `DEL key`: the store after it. A `DEL` that the client
reports as failed has not been applied. -/
def Store.Del (st : Store) (key : String) (c : Call) : Store :=
  match c.fault with
  | some _ => st
  | none => st.unset key

/-- The command `SET key value EX ttl`: the store after it and the error
reported. The key gets the value and a fresh time-to-live. -/
def Store.Set (st : Store) (key value : String) (ttl : Int) (c : Call) :
    Store × Option String :=
  match c.fault with
  | some err => (st, some err)
  | none => (⟨key, value, c.time + ttl⟩ :: st.unset key, none)

/-- The command `GET key`. -/
def Store.Get (st : Store) (key : String) (c : Call) : GetResult :=
  match c.fault with
  | some err => GetResult.error err
  | none =>
    match st.resolve key c.time with
    | some v => GetResult.value v
    | none => GetResult.Nil

/-! ## Requests and responses -/

/-- A cookie as `http.SetCookie` sends it; `Expires` is an instant in
nanoseconds since the Unix epoch. -/
structure Cookie where
  Name : String
  Value : String
  Expires : Int
  deriving DecidableEq, Repr

/-- What a handler reads of a request: the query parameters and the
cookies, each a name and a value, in the order received. -/
structure Request where
  query : List (String × String)
  cookies : List (String × String)
  deriving DecidableEq, Repr

/-- What a handler writes: the status, the text it passed to `http.Error`,
the cookies set and the target of the redirect. -/
structure Response where
  status : Nat
  body : String
  cookies : List Cookie
  location : Option String
  deriving DecidableEq, Repr

/-- `r.URL.Query().Get(name)`: the first value of the parameter, or the
empty string. -/
def Request.queryGet (r : Request) (name : String) : String :=
  match r.query.find? (fun p => p.1 = name) with
  | some p => p.2
  | none => ""

/-- `r.Cookie(name)`: the value of the first cookie of that name; `none`
stands for `http.ErrNoCookie`. -/
def Request.Cookie (r : Request) (name : String) : Option String :=
  match r.cookies.find? (fun p => p.1 = name) with
  | some p => some p.2
  | none => none

/-- `http.Error(w, msg, code)` on a fresh response. -/
def httpError (msg : String) (code : Nat) : Response :=
  ⟨code, msg ++ "\n", [], none⟩

/-- `http.StatusBadRequest`. -/
def StatusBadRequest : Nat := 400

/-- `http.StatusInternalServerError`. -/
def StatusInternalServerError : Nat := 500

/-- `http.StatusSeeOther`. -/
def StatusSeeOther : Nat := 303

/-- `time.Hour`, in nanoseconds. -/
def Hour : Int := 3600000000000

/-! ## The handlers of `main.go` -/

/-- The identity provider as `handleCallback` meets it: the outcome of
`oauthCfg.Exchange` for a code (a token, or `none` for an error) and the
body of the user-info response for a token (`none` for an error). -/
structure Provider where
  Exchange : String → Option String
  userinfo : String → Option (List Char)

/-- The circumstances of one run of `handleCallback` past the provider:
the reading of `time.Now().UnixNano()` at line 123, the reading of
`time.Now()` at line 135, and the circumstances of the `Set`. -/
structure CallbackEnv where
  now : Int
  cookieNow : Int
  set : Call
  deriving DecidableEq, Repr

/-- The session identifier of line 123 for a clock reading. -/
def sessionID (now : Int) : String := String.mk (Sprintf_d now)

/-- The key of a session in the store. -/
def sessionKey (id : String) : String := "session:" ++ id

/-- Lines 97-121 of `handleCallback`: the user obtained from the provider,
or the response of the handler where it gives up. -/
def fetchUser (r : Request) (idp : Provider) : Except Response User :=
  let code := r.queryGet "code"
  if code = "" then Except.error (httpError "code not found" StatusBadRequest)
  else
    match idp.Exchange code with
    | none => Except.error (httpError "token exchange failed" StatusInternalServerError)
    | some token =>
      match idp.userinfo token with
      | none => Except.error (httpError "failed to get user info" StatusInternalServerError)
      | some body =>
        match Decode body User.zero with
        | (_, some _) =>
          Except.error (httpError "failed to decode user info" StatusInternalServerError)
        | (user, none) => Except.ok user

/-- Lines 123-138 of `handleCallback`, the creation of the session for the
user obtained: the response and the store after it. -/
def createSession (user : User) (env : CallbackEnv) (st : Store) : Response × Store :=
  let id := sessionID env.now
  let userJSON := String.mk (Marshal user)
  match st.Set (sessionKey id) userJSON Hour env.set with
  | (st1, some _) => (httpError "failed to store session" StatusInternalServerError, st1)
  | (st1, none) =>
    (⟨StatusSeeOther, "", [⟨"session", id, env.cookieNow + 1 * Hour⟩], some "/"⟩, st1)

/-- The handler `handleCallback`. -/
def handleCallback (r : Request) (idp : Provider) (env : CallbackEnv) (st : Store) :
    Response × Store :=
  match fetchUser r idp with
  | Except.error resp => (resp, st)
  | Except.ok user => createSession user env st

/-- The handler `handleLogout`, with the circumstances of its `Del`, whose
result line 144 discards. -/
def handleLogout (r : Request) (st : Store) (del : Call) : Response × Store :=
  let st1 :=
    match r.Cookie "session" with
    | some v => st.Del (sessionKey v) del
    | none => st
  (⟨StatusSeeOther, "", [⟨"session", "", 0⟩], some "/"⟩, st1)

/-- The function `getUser`, with the circumstances of its `Get`. -/
def getUser (r : Request) (st : Store) (c : Call) : User × Bool :=
  match r.Cookie "session" with
  | none => (User.zero, false)
  | some v =>
    match st.Get (sessionKey v) c with
    | GetResult.Nil => (User.zero, false)
    | GetResult.error _ => (User.zero, false)
    | GetResult.value val =>
      match Unmarshal val.toList User.zero with
      | (_, some _) => (User.zero, false)
      | (user, none) => (user, true)

/-! ## Runs of the program -/

/-- An operation of the program on the store: a run of `handleCallback` or
a run of `handleLogout`. -/
inductive Op where
  | callback (r : Request) (idp : Provider) (env : CallbackEnv)
  | logout (r : Request) (del : Call)

/-- One operation: the response and the store after it. -/
def step (st : Store) : Op → Response × Store
  | Op.callback r idp env => handleCallback r idp env st
  | Op.logout r del => handleLogout r st del

/-- The store after a sequence of operations. -/
def run (st : Store) : List Op → Store
  | [] => st
  | op :: ops => run (step st op).2 ops

/-- The session identifiers a response hands out: the values of its
`session` cookies. -/
def sessionCookies (resp : Response) : List String :=
  (resp.cookies.filter (fun ck => ck.Name = "session")).map (fun ck => ck.Value)

/-- The session identifiers that the creations of a sequence of operations
have returned. -/
def issued (st : Store) : List Op → List String
  | [] => []
  | Op.callback r idp env :: ops =>
    sessionCookies (handleCallback r idp env st).1 ++
      issued (handleCallback r idp env st).2 ops
  | Op.logout r del :: ops => issued (handleLogout r st del).2 ops

/-- An operation that issues the identifier of the clock reading `t`: a
run of `handleCallback` that reads `t` at line 123, has obtained a user and
whose `Set` succeeds. -/
def Op.issues (t : Int) : Op → Bool
  | Op.callback r idp env =>
    match fetchUser r idp with
    | Except.ok _ => env.now = t && env.set.fault = none
    | Except.error _ => false
  | Op.logout _ _ => false

/-! ## Sample inputs -/

/-- A user. -/
def alice : User := ⟨"a@x.com", "A", ""⟩

/-- Another user, with characters that the JSON form escapes. -/
def bob : User := ⟨"b@x.com", "B <b>", "http://p/b.png"⟩

/-- A callback request carrying an authorization code. -/
def demoRequest : Request := ⟨[("code", "4/abc")], []⟩

/-- A provider that accepts every code and reports the user `u`. -/
def demoProvider (u : User) : Provider :=
  ⟨fun _ => some "token", fun _ => some (Marshal u)⟩

/-- A request carrying the cookie `session=s`. -/
def cookieRequest (s : String) : Request := ⟨[], [("session", s)]⟩

/-- A request without cookies. -/
def plainRequest : Request := ⟨[], []⟩

/-- A command that the store serves at time `t`. -/
def served (t : Int) : Call := ⟨t, none⟩

/-- A command for which the client reports an error at time `t`. -/
def refused (t : Int) : Call := ⟨t, some "dial tcp: connection refused"⟩

/-- A stored value that is valid JSON but holds a number where the name is
expected: the object with `email` set to `a@x.com` and `name` set to 5. -/
def mistypedValue : String :=
  String.mk (lbrace :: (appendString "email".toList ++ colon ::
    (appendString "a@x.com".toList ++ comma ::
    (appendString "name".toList ++ [colon, '5', rbrace]))))

/-! # Theorems -/

/-! ## The model on sample texts -/

theorem Sprintf_d_samples :
    Sprintf_d 1700000000123456789 = "1700000000123456789".toList ∧
    Sprintf_d (-45) = "-45".toList ∧ Sprintf_d 0 = "0".toList ∧
    intValue "-45".toList = some (-45) ∧ intValue "007".toList = some 7 ∧
    intValue "-".toList = none ∧ intValue "4x".toList = none := by
  decide

theorem Marshal_sample :
    String.mk (Marshal ⟨"a@x.com", "A", ""⟩) =
      "\x7b\"email\":\"a@x.com\",\"name\":\"A\",\"picture\":\"\"\x7d" ∧
    String.mk (Marshal ⟨"<&>", "\t", "\\"⟩) =
      "\x7b\"email\":\"\\u003c\\u0026\\u003e\",\"name\":\"\\t\",\"picture\":\"\\\\\"\x7d" := by
  decide

theorem unquote_samples :
    unquote "ab\"c".toList = some ("ab".toList, "c".toList) ∧
    unquote "a\\n\\u00e9\\ud83d\\ude00\\ud83dx\"c".toList =
      some (['a', Char.ofNat 10, Char.ofNat 0xe9, Char.ofNat 0x1F600, replacementChar, 'x'],
        "c".toList) ∧
    unquote "a\\ud83d\\u0041\"c".toList = some (['a', replacementChar, 'A'], "c".toList) ∧
    unquote "a\\x\"".toList = none ∧ unquote "a\tb\"".toList = none ∧
    unquote "abc".toList = none := by
  decide

theorem Unmarshal_samples :
    Unmarshal "null".toList alice = (alice, none) ∧
    Unmarshal "\x7b\x7d".toList User.zero = (User.zero, none) ∧
    Unmarshal " \x7b \"EMAIL\" : \"x\" , \"name\":[1, 2.5e+3, \x7b\"a\":null\x7d], \"z\":true, \"Picture\":\"p\"\x7d ".toList
        User.zero =
      (⟨"x", "", "p"⟩, some (JsonError.UnmarshalTypeError "array" "User.name")) ∧
    Unmarshal "\x7b\"name\":\"a\",\"name\":\"b\",\"email\":null\x7d".toList alice =
      (⟨"a@x.com", "b", ""⟩, none) ∧
    Unmarshal "[[[[[[1]]]]]]".toList User.zero =
      (User.zero, some (JsonError.UnmarshalTypeError "array" "User")) ∧
    Unmarshal "[01]".toList User.zero = (User.zero, some JsonError.SyntaxError) ∧
    Unmarshal "\x7b\"name\":\"a\",\x7d".toList User.zero =
      (User.zero, some JsonError.SyntaxError) ∧
    Unmarshal "\x7b\x7d x".toList User.zero = (User.zero, some JsonError.SyntaxError) ∧
    Unmarshal "".toList User.zero = (User.zero, some JsonError.SyntaxError) ∧
    Decode "\x7b\x7d x".toList User.zero = (User.zero, none) := by
  decide

theorem hex_getu4_low : ∀ n, n < 128 →
    getu4 '0' '0' (hex (n / 16)) (hex (n % 16)) = some n := by
  decide

theorem unquoteFrom_skip (pre tail : List Char) :
    unquoteFrom pre.length (pre ++ tail) = unquoteFrom 0 tail := by
  induction pre with
  | nil => rfl
  | cons c pre ih => simpa [unquoteFrom] using ih

theorem unquoteFrom_zero_cons (c : Char) (rest : List Char) :
    unquoteFrom 0 (c :: rest) =
      if c = dquote then some ([], rest)
      else
        match readChar c rest with
        | none => none
        | some (ch, extra) => consChar ch (unquoteFrom extra rest) := by
  rw [unquoteFrom]

theorem unquoteFrom_escape (c0 ch : Char) (pre tail : List Char)
    (hq : c0 ≠ dquote) (hr : readChar c0 (pre ++ tail) = some (ch, pre.length)) :
    unquoteFrom 0 (c0 :: (pre ++ tail)) = consChar ch (unquoteFrom 0 tail) := by
  rw [unquoteFrom_zero_cons, if_neg hq, hr]
  simp only [unquoteFrom_skip]

theorem readChar_simple (e ch : Char) (tail : List Char) (hu : e ≠ 'u')
    (hs : simpleEscape e = some ch) :
    readChar backslash (e :: tail) = some (ch, 1) := by
  simp [readChar, hu, hs]

theorem readChar_u4 (a b c d : Char) (n : Nat) (tail : List Char)
    (hg : getu4 a b c d = some n) (hs : isSurrogate n = false) :
    readChar backslash ('u' :: a :: b :: c :: d :: tail) = some (Char.ofNat n, 5) := by
  simp [readChar, hg, hs]

theorem char_eq_of_toNat (c : Char) (n : Nat) (h : c.toNat = n) : c = Char.ofNat n := by
  rw [← h, Char.ofNat_toNat]

theorem unquote_escapeChar (c : Char) (tail : List Char) :
    unquoteFrom 0 (escapeChar c ++ tail) = consChar c (unquoteFrom 0 tail) := by
  have bq : backslash ≠ dquote := by decide
  unfold escapeChar
  split_ifs with h1 h2 h3 h4 h5 h6 h7 h8 h9
  · subst h1
    exact unquoteFrom_escape backslash dquote [dquote] tail bq
      (readChar_simple _ _ _ (by decide) (by decide))
  · subst h2
    exact unquoteFrom_escape backslash backslash [backslash] tail bq
      (readChar_simple _ _ _ (by decide) (by decide))
  · rw [char_eq_of_toNat c 8 h3]
    exact unquoteFrom_escape backslash _ ['b'] tail bq
      (readChar_simple _ _ _ (by decide) (by decide))
  · rw [char_eq_of_toNat c 12 h4]
    exact unquoteFrom_escape backslash _ ['f'] tail bq
      (readChar_simple _ _ _ (by decide) (by decide))
  · rw [char_eq_of_toNat c 10 h5]
    exact unquoteFrom_escape backslash _ ['n'] tail bq
      (readChar_simple _ _ _ (by decide) (by decide))
  · rw [char_eq_of_toNat c 13 h6]
    exact unquoteFrom_escape backslash _ ['r'] tail bq
      (readChar_simple _ _ _ (by decide) (by decide))
  · rw [char_eq_of_toNat c 9 h7]
    exact unquoteFrom_escape backslash _ ['t'] tail bq
      (readChar_simple _ _ _ (by decide) (by decide))
  · have hn : c.toNat < 128 := by omega
    have hc : c = Char.ofNat c.toNat := (Char.ofNat_toNat c).symm
    have hs : isSurrogate c.toNat = false := by
      simp only [isSurrogate, Bool.and_eq_false_imp, decide_eq_true_eq, decide_eq_false_iff_not]
      omega
    have := unquoteFrom_escape backslash (Char.ofNat c.toNat)
      ['u', '0', '0', hex (c.toNat / 16), hex (c.toNat % 16)] tail bq
      (readChar_u4 _ _ _ _ _ _ (hex_getu4_low _ hn) hs)
    rw [← hc] at this
    exact this
  · have hg : getu4 '2' '0' '2' (hex (c.toNat % 16)) = some c.toNat := by
      rcases h9 with h | h <;> rw [h] <;> decide
    have hc : c = Char.ofNat c.toNat := (Char.ofNat_toNat c).symm
    have hs : isSurrogate c.toNat = false := by
      rcases h9 with h | h <;> rw [h] <;> decide
    have := unquoteFrom_escape backslash (Char.ofNat c.toNat)
      ['u', '2', '0', '2', hex (c.toNat % 16)] tail bq
      (readChar_u4 _ _ _ _ _ _ hg hs)
    rw [← hc] at this
    exact this
  · have hr : readChar c ([] ++ tail) = some (c, ([] : List Char).length) := by
      have : ¬ c.toNat < 32 := by omega
      simp [readChar, h2, this]
    exact unquoteFrom_escape c c [] tail h1 hr

theorem unquote_appendString (s tail : List Char) :
    unquoteFrom 0 (s.flatMap escapeChar ++ dquote :: tail) = some (s, tail) := by
  induction s with
  | nil => simp [unquoteFrom]
  | cons c s ih =>
    rw [List.flatMap_cons, List.append_assoc, unquote_escapeChar, ih]
    rfl

theorem unquote_quoted (str tail : List Char) :
    unquote (str.flatMap escapeChar ++ dquote :: tail) = some (str, tail) :=
  unquote_appendString str tail

theorem appendString_append (str tail : List Char) :
    appendString str ++ tail = dquote :: (str.flatMap escapeChar ++ dquote :: tail) := by
  simp [appendString]

theorem parseValue_string (fuel depth : Nat) (str tail : List Char) :
    parseValue (fuel + 1) depth (appendString str ++ tail) =
      some (JValue.string str, tail) := by
  rw [appendString_append, parseValue]
  simp [show dquote ≠ lbrace by decide, show dquote ≠ lbracket by decide, unquote_quoted]

theorem skipSpace_of_not_isSpace (c : Char) (rest : List Char) (h : isSpace c = false) :
    skipSpace (c :: rest) = c :: rest := by
  simp [skipSpace, h]

theorem skipSpace_quoted (str tail : List Char) :
    skipSpace (appendString str ++ tail) = appendString str ++ tail := by
  rw [appendString_append]
  exact skipSpace_of_not_isSpace _ _ (by decide)

theorem parseMembers_last (fuel depth : Nat) (key val tail : List Char) :
    parseMembers (fuel + 2) depth
        (appendString key ++ colon :: (appendString val ++ rbrace :: tail)) =
      some ([(key, JValue.string val)], tail) := by
  rw [appendString_append, parseMembers]
  simp only [if_true, unquote_quoted]
  rw [skipSpace_of_not_isSpace colon _ (by decide)]
  simp only [if_true, skipSpace_quoted, parseValue_string]
  rw [skipSpace_of_not_isSpace rbrace _ (by decide)]
  simp [show rbrace ≠ comma by decide]

theorem parseMembers_more (fuel depth : Nat) (key val tail : List Char)
    (ms : List (List Char × JValue)) (r : List Char)
    (h : parseMembers (fuel + 1) depth (skipSpace tail) = some (ms, r)) :
    parseMembers (fuel + 2) depth
        (appendString key ++ colon :: (appendString val ++ comma :: tail)) =
      some ((key, JValue.string val) :: ms, r) := by
  rw [appendString_append, parseMembers]
  simp only [if_true, unquote_quoted]
  rw [skipSpace_of_not_isSpace colon _ (by decide)]
  simp only [if_true, skipSpace_quoted, parseValue_string]
  rw [skipSpace_of_not_isSpace comma _ (by decide)]
  simp [h]

theorem parseValue_Marshal (fuel : Nat) (u : User) :
    parseValue (fuel + 5) 0 (Marshal u) =
      some (JValue.object
        [(Field.Email.jsonName.toList, JValue.string u.Email.toList),
         (Field.Name.jsonName.toList, JValue.string u.Name.toList),
         (Field.Pic.jsonName.toList, JValue.string u.Pic.toList)], []) := by
  have h3 := parseMembers_last fuel 1 Field.Pic.jsonName.toList u.Pic.toList []
  rw [← skipSpace_quoted] at h3
  have h2 := parseMembers_more (fuel + 1) 1 Field.Name.jsonName.toList u.Name.toList _ _ _ h3
  rw [← skipSpace_quoted] at h2
  have h1 : parseMembers (fuel + 4) 1 _ = _ :=
    parseMembers_more (fuel + 2) 1 Field.Email.jsonName.toList u.Email.toList _ _ _ h2
  rw [Marshal, parseValue]
  rw [if_pos rfl, if_neg (by decide), skipSpace_quoted]
  rw [appendString_append] at h1 ⊢
  simp only [show ¬ (dquote = rbrace) by decide, if_false]
  rw [h1]

theorem Marshal_length (u : User) : 5 ≤ (Marshal u).length := by
  simp [Marshal, appendString]
  omega

/-- The JSON round trip of `encoding/json` on `User`: decoding what
`json.Marshal` wrote gives the record back, with no error, whatever the
variable held before. -/
theorem Unmarshal_Marshal (u v : User) : Unmarshal (Marshal u) v = (u, none) := by
  obtain ⟨n, hn⟩ : ∃ n, 2 * (Marshal u).length + 1 = n + 5 :=
    ⟨2 * (Marshal u).length - 4, by have := Marshal_length u; omega⟩
  have hs : skipSpace (Marshal u) = Marshal u := skipSpace_of_not_isSpace _ _ (by decide)
  rw [Unmarshal, hn, hs, parseValue_Marshal]
  rfl

/-! ## The parser never runs out of rounds -/

theorem skipSpace_length (cs : List Char) : (skipSpace cs).length ≤ cs.length := by
  induction cs with
  | nil => simp [skipSpace]
  | cons c rest ih =>
    unfold skipSpace
    split
    · simp only [List.length_cons]; omega
    · simp

theorem skipDigits_length (cs : List Char) : (skipDigits cs).length ≤ cs.length := by
  induction cs with
  | nil => simp [skipDigits]
  | cons c rest ih =>
    unfold skipDigits
    split
    · simp only [List.length_cons]; omega
    · simp

theorem skipDigits1_length (cs r : List Char) (h : skipDigits1 cs = some r) :
    r.length < cs.length := by
  cases cs with
  | nil => simp [skipDigits1] at h
  | cons c rest =>
    simp only [skipDigits1] at h
    split at h
    · cases h
      have := skipDigits_length rest
      simp only [List.length_cons]; omega
    · cases h

theorem scanExp_length (cs r : List Char) (h : scanExp cs = some r) :
    r.length ≤ cs.length := by
  cases cs with
  | nil => simp [scanExp] at h; subst h; simp
  | cons c rest =>
    simp only [scanExp] at h
    split at h
    · cases rest with
      | nil => simp at h
      | cons s rest1 =>
        simp only at h
        split at h
        · have := skipDigits1_length _ _ h
          simp only [List.length_cons]; omega
        · have := skipDigits1_length _ _ h
          simp only [List.length_cons] at this ⊢; omega
    · cases h; simp

theorem scanFrac_length (cs r : List Char) (h : scanFrac cs = some r) :
    r.length ≤ cs.length := by
  cases cs with
  | nil => simp [scanFrac] at h; subst h; simp
  | cons c rest =>
    simp only [scanFrac] at h
    split at h
    · cases h1 : skipDigits1 rest with
      | none => simp [h1] at h
      | some r1 =>
        simp only [h1] at h
        have := skipDigits1_length _ _ h1
        have := scanExp_length _ _ h
        simp only [List.length_cons]; omega
    · exact scanExp_length _ _ h

theorem scanInt_length (cs r : List Char) (h : scanInt cs = some r) :
    r.length < cs.length := by
  cases cs with
  | nil => simp [scanInt] at h
  | cons c rest =>
    simp only [scanInt] at h
    split at h
    · have := scanFrac_length _ _ h
      simp only [List.length_cons]; omega
    · split at h
      · have := scanFrac_length _ _ h
        have := skipDigits_length rest
        simp only [List.length_cons]; omega
      · cases h

theorem scanNumber_length (cs r : List Char) (h : scanNumber cs = some r) :
    r.length < cs.length := by
  cases cs with
  | nil => simp [scanNumber] at h
  | cons c rest =>
    simp only [scanNumber] at h
    split at h
    · have := scanInt_length _ _ h
      simp only [List.length_cons]; omega
    · exact scanInt_length _ _ h

theorem scanLiteral_length (cs r : List Char) (v : JValue) (h : scanLiteral cs = some (v, r)) :
    r.length < cs.length := by
  unfold scanLiteral at h
  split at h
  all_goals first
    | (cases h; simp only [List.length_cons]; omega)
    | cases h

theorem consChar_some (c : Char) (x : Option (List Char × List Char)) (str r : List Char)
    (h : consChar c x = some (str, r)) : ∃ s1, x = some (s1, r) := by
  cases x with
  | none => simp [consChar] at h
  | some p =>
    obtain ⟨s1, r1⟩ := p
    simp only [consChar, Option.some.injEq, Prod.mk.injEq] at h
    exact ⟨s1, by rw [h.2]⟩

theorem unquoteFrom_length (cs : List Char) : ∀ (skip : Nat) (str r : List Char),
    unquoteFrom skip cs = some (str, r) → r.length < cs.length := by
  induction cs with
  | nil => intro skip str r h; cases skip <;> simp [unquoteFrom] at h
  | cons c rest ih =>
    intro skip str r h
    cases skip with
    | succ k =>
      simp only [unquoteFrom] at h
      have := ih k str r h
      simp only [List.length_cons]; omega
    | zero =>
      rw [unquoteFrom_zero_cons] at h
      split at h
      · cases h; simp
      · split at h
        · cases h
        · rename_i ch extra _
          obtain ⟨s1, h1⟩ := consChar_some _ _ _ _ h
          have := ih extra s1 r h1
          simp only [List.length_cons]; omega

theorem unquote_length (cs str r : List Char) (h : unquote cs = some (str, r)) :
    r.length < cs.length := unquoteFrom_length cs 0 str r h

theorem skipSpace_cons_length (cs rest1 : List Char) (c1 : Char)
    (h : skipSpace cs = c1 :: rest1) : rest1.length < cs.length := by
  have := skipSpace_length cs
  rw [h] at this
  simp only [List.length_cons] at this
  omega

theorem parse_length (fuel : Nat) :
    (∀ d cs v r, parseValue fuel d cs = some (v, r) → r.length < cs.length) ∧
    (∀ d cs ms r, parseMembers fuel d cs = some (ms, r) → r.length < cs.length) ∧
    (∀ d cs es r, parseElements fuel d cs = some (es, r) → r.length < cs.length) := by
  induction fuel with
  | zero =>
    refine ⟨?_, ?_, ?_⟩ <;> intro d cs x r h
    · simp [parseValue] at h
    · simp [parseMembers] at h
    · simp [parseElements] at h
  | succ fuel ih =>
    obtain ⟨ihV, ihM, ihE⟩ := ih
    refine ⟨?_, ?_, ?_⟩
    · intro d cs v r h
      cases cs with
      | nil => simp [parseValue] at h
      | cons c rest =>
        rw [parseValue] at h
        simp only [List.length_cons]
        split at h
        · split at h
          · cases h
          · split at h
            · cases h
            · rename_i c1 rest1 hs
              have hl := skipSpace_cons_length _ _ _ hs
              split at h
              · cases h; omega
              · split at h
                · rename_i ms r1 hm
                  cases h
                  have := ihM _ _ _ _ hm
                  simp only [List.length_cons] at this
                  omega
                · cases h
        · split at h
          · split at h
            · cases h
            · split at h
              · cases h
              · rename_i c1 rest1 hs
                have hl := skipSpace_cons_length _ _ _ hs
                split at h
                · cases h; omega
                · split at h
                  · rename_i es r1 hm
                    cases h
                    have := ihE _ _ _ _ hm
                    simp only [List.length_cons] at this
                    omega
                  · cases h
          · split at h
            · split at h
              · rename_i str r1 hu
                cases h
                have := unquote_length _ _ _ hu
                omega
              · cases h
            · split at h
              · split at h
                · rename_i r1 hn
                  cases h
                  have := scanNumber_length _ _ hn
                  simp only [List.length_cons] at this
                  omega
                · cases h
              · have := scanLiteral_length _ _ _ h
                simp only [List.length_cons] at this
                omega
    · intro d cs ms r h
      cases cs with
      | nil => simp [parseMembers] at h
      | cons c rest =>
        rw [parseMembers] at h
        simp only [List.length_cons]
        split at h
        · split at h
          · cases h
          · rename_i key r1 hu
            have h1 := unquote_length _ _ _ hu
            split at h
            · cases h
            · rename_i c2 r2 hs2
              have h2 := skipSpace_cons_length _ _ _ hs2
              split at h
              · split at h
                · cases h
                · rename_i v r3 hv
                  have h3 := ihV _ _ _ _ hv
                  have h3s := skipSpace_length r2
                  split at h
                  · cases h
                  · rename_i c4 r4 hs4
                    have h4 := skipSpace_cons_length _ _ _ hs4
                    split at h
                    · split at h
                      · rename_i ms1 r5 hm
                        cases h
                        have h5 := ihM _ _ _ _ hm
                        have h5s := skipSpace_length r4
                        omega
                      · cases h
                    · split at h
                      · cases h; omega
                      · cases h
              · cases h
        · cases h
    · intro d cs es r h
      rw [parseElements] at h
      split at h
      · cases h
      · rename_i v r3 hv
        have h3 := ihV _ _ _ _ hv
        split at h
        · cases h
        · rename_i c4 r4 hs4
          have h4 := skipSpace_cons_length _ _ _ hs4
          split at h
          · split at h
            · rename_i es1 r5 hm
              cases h
              have h5 := ihE _ _ _ _ hm
              have h5s := skipSpace_length r4
              omega
            · cases h
          · split at h
            · cases h; omega
            · cases h

theorem parse_fuel (fuel : Nat) :
    (∀ d cs, 2 * cs.length < fuel → ∀ k, parseValue (fuel + k) d cs = parseValue fuel d cs) ∧
    (∀ d cs, 2 * cs.length < fuel →
      ∀ k, parseMembers (fuel + k) d cs = parseMembers fuel d cs) ∧
    (∀ d cs, 2 * cs.length + 1 < fuel →
      ∀ k, parseElements (fuel + k) d cs = parseElements fuel d cs) := by
  induction fuel with
  | zero =>
    refine ⟨?_, ?_, ?_⟩ <;> intro d cs h <;> omega
  | succ fuel ih =>
    obtain ⟨ihV, ihM, ihE⟩ := ih
    refine ⟨?_, ?_, ?_⟩
    · intro d cs hlen k
      have e : fuel + 1 + k = (fuel + k) + 1 := by omega
      rw [e]
      cases cs with
      | nil => simp [parseValue]
      | cons c rest =>
        simp only [List.length_cons] at hlen
        rw [parseValue, parseValue]
        have hsl := skipSpace_length rest
        cases hs : skipSpace rest with
        | nil => rfl
        | cons c1 rest1 =>
          rw [hs] at hsl
          simp only [List.length_cons] at hsl
          simp only
          rw [ihM (d + 1) (c1 :: rest1) (by simp only [List.length_cons]; omega) k,
            ihE (d + 1) (c1 :: rest1) (by simp only [List.length_cons]; omega) k]
    · intro d cs hlen k
      have e : fuel + 1 + k = (fuel + k) + 1 := by omega
      rw [e]
      cases cs with
      | nil => simp [parseMembers]
      | cons c rest =>
        simp only [List.length_cons] at hlen
        rw [parseMembers, parseMembers]
        by_cases hq : c = dquote
        · simp only [hq, if_true]
          cases hu : unquote rest with
          | none => rfl
          | some p =>
            obtain ⟨key, r1⟩ := p
            have h1 := unquote_length _ _ _ hu
            simp only
            cases hs2 : skipSpace r1 with
            | nil => rfl
            | cons c2 r2 =>
              have h2 := skipSpace_cons_length _ _ _ hs2
              have h2s := skipSpace_length r2
              simp only
              by_cases hc : c2 = colon
              · simp only [hc, if_true]
                rw [ihV d (skipSpace r2) (by omega) k]
                cases hv : parseValue fuel d (skipSpace r2) with
                | none => rfl
                | some q =>
                  obtain ⟨v, r3⟩ := q
                  have h3 := (parse_length fuel).1 _ _ _ _ hv
                  simp only
                  cases hs4 : skipSpace r3 with
                  | nil => rfl
                  | cons c4 r4 =>
                    have h4 := skipSpace_cons_length _ _ _ hs4
                    have h4s := skipSpace_length r4
                    simp only
                    rw [ihM d (skipSpace r4) (by omega) k]
              · simp only [hc, if_false]
        · simp only [hq, if_false]
    · intro d cs hlen k
      have e : fuel + 1 + k = (fuel + k) + 1 := by omega
      rw [e, parseElements, parseElements]
      rw [ihV d cs (by omega) k]
      cases hv : parseValue fuel d cs with
      | none => rfl
      | some q =>
        obtain ⟨v, r3⟩ := q
        have h3 := (parse_length fuel).1 _ _ _ _ hv
        simp only
        cases hs4 : skipSpace r3 with
        | nil => rfl
        | cons c4 r4 =>
          have h4 := skipSpace_cons_length _ _ _ hs4
          have h4s := skipSpace_length r4
          simp only
          rw [ihE d (skipSpace r4) (by omega) k]

/-- No parse runs out of rounds: with twice the length of the text and
one, `parseValue` gives what it gives with any larger bound. A syntax error
of `Unmarshal` is an error of the text. -/
theorem parseValue_fuel_enough (d : Nat) (cs : List Char) (k : Nat) :
    parseValue (2 * cs.length + 1 + k) d cs = parseValue (2 * cs.length + 1) d cs :=
  (parse_fuel (2 * cs.length + 1)).1 d cs (by omega) k

/-- The round trip of the stream decoder used on the answer of the
provider. -/
theorem Decode_Marshal (u v : User) : Decode (Marshal u) v = (u, none) := by
  obtain ⟨n, hn⟩ : ∃ n, 2 * (Marshal u).length + 1 = n + 5 :=
    ⟨2 * (Marshal u).length - 4, by have := Marshal_length u; omega⟩
  have hs : skipSpace (Marshal u) = Marshal u := skipSpace_of_not_isSpace _ _ (by decide)
  rw [Decode, hn, hs, parseValue_Marshal]
  rfl

/-- Every identity can reach the creation of a session: a provider that
reports `u` makes `handleCallback` obtain `u`. -/
theorem fetchUser_demoProvider (u : User) :
    fetchUser demoRequest (demoProvider u) = Except.ok u := by
  simp [fetchUser, demoRequest, demoProvider, Request.queryGet, Decode_Marshal]

/-! ## The store: what a command changes -/

theorem lookup_unset_self (st : Store) (key : String) : (st.unset key).lookup key = none := by
  simp [Store.lookup, Store.unset, List.find?_eq_none]

theorem lookup_unset_of_ne (st : Store) (key k : String) (h : k ≠ key) :
    (st.unset key).lookup k = st.lookup k := by
  induction st with
  | nil => rfl
  | cons e st ih =>
    unfold Store.lookup Store.unset at *
    rw [List.filter_cons]
    by_cases he : e.key = key
    · have hk : ¬ e.key = k := fun hek => h (hek ▸ he)
      rw [if_neg (by simpa using he), List.find?_cons_of_neg _ (by simpa using hk)]
      exact ih
    · rw [if_pos (by simpa using he)]
      by_cases hk : e.key = k
      · rw [List.find?_cons_of_pos _ (by simpa using hk),
          List.find?_cons_of_pos _ (by simpa using hk)]
      · rw [List.find?_cons_of_neg _ (by simpa using hk),
          List.find?_cons_of_neg _ (by simpa using hk)]
        exact ih

theorem unset_of_lookup_none (st : Store) (key : String) (h : st.lookup key = none) :
    st.unset key = st := by
  simp only [Store.lookup, List.find?_eq_none] at h
  simp only [Store.unset, List.filter_eq_self]
  intro e he
  simpa using h e he

theorem lookup_unset_sub (st : Store) (key k : String) (e : Entry)
    (h : (st.unset key).lookup k = some e) : st.lookup k = some e := by
  by_cases hk : k = key
  · subst hk
    rw [lookup_unset_self] at h
    cases h
  · rwa [lookup_unset_of_ne st key k hk] at h

theorem Del_served (st : Store) (key : String) (c : Call) (h : c.fault = none) :
    st.Del key c = st.unset key := by
  simp [Store.Del, h]

theorem Del_refused (st : Store) (key : String) (c : Call) (msg : String)
    (h : c.fault = some msg) : st.Del key c = st := by
  simp [Store.Del, h]

theorem Del_of_lookup_none (st : Store) (key : String) (c : Call)
    (h : st.lookup key = none) : st.Del key c = st := by
  unfold Store.Del
  cases c.fault with
  | some msg => rfl
  | none => exact unset_of_lookup_none st key h

theorem lookup_Del_sub (st : Store) (key : String) (c : Call) (k : String) (e : Entry)
    (h : (st.Del key c).lookup k = some e) : st.lookup k = some e := by
  unfold Store.Del at h
  cases hf : c.fault with
  | some msg => rw [hf] at h; exact h
  | none => rw [hf] at h; exact lookup_unset_sub st key k e h

theorem lookup_Del_of_ne (st : Store) (key : String) (c : Call) (k : String)
    (h : k ≠ key) : (st.Del key c).lookup k = st.lookup k := by
  unfold Store.Del
  cases c.fault with
  | some msg => rfl
  | none => exact lookup_unset_of_ne st key k h

theorem lookup_key (st : Store) (k : String) (e : Entry) (h : st.lookup k = some e) :
    e.key = k := by
  have := List.find?_some h
  simpa using this

theorem lookup_mem (st : Store) (k : String) (e : Entry) (h : st.lookup k = some e) :
    e ∈ st := List.mem_of_find?_eq_some h

theorem lookup_Set_self (st : Store) (key value : String) (ttl : Int) (c : Call)
    (h : c.fault = none) :
    (st.Set key value ttl c).1.lookup key = some ⟨key, value, c.time + ttl⟩ := by
  simp [Store.Set, h, Store.lookup]

theorem lookup_Set_of_ne (st : Store) (key value : String) (ttl : Int) (c : Call)
    (k : String) (h : k ≠ key) :
    (st.Set key value ttl c).1.lookup k = st.lookup k := by
  unfold Store.Set
  cases c.fault with
  | some err => rfl
  | none =>
    have hk : ¬ key = k := fun hh => h hh.symm
    have := lookup_unset_of_ne st key k h
    simp only [Store.lookup] at this ⊢
    simp [List.find?_cons, hk, this]

theorem sessionKey_injective (a b : String) (h : sessionKey a = sessionKey b) : a = b := by
  have h1 : (sessionKey a).data = (sessionKey b).data := by rw [h]
  simp only [sessionKey, String.data_append, List.append_cancel_left_eq] at h1
  exact String.ext h1

/-! ## The decimal numeral of a clock reading -/

theorem digit_char : ∀ k, k < 10 →
    isDigit (Char.ofNat (48 + k)) = true ∧ (Char.ofNat (48 + k)).toNat - 48 = k := by
  decide

theorem fmtDigits_buf (fuel u : Nat) (buf : List Char) :
    fmtDigits fuel u buf = fmtDigits fuel u [] ++ buf := by
  induction fuel generalizing u buf with
  | zero => simp [fmtDigits]
  | succ fuel ih =>
    unfold fmtDigits
    split
    · rw [ih, ih (u / 10) [_]]
      simp
    · simp

theorem fmtDigits_ne_nil (fuel u : Nat) (buf : List Char) : fmtDigits fuel u buf ≠ [] := by
  induction fuel generalizing u buf with
  | zero => simp [fmtDigits]
  | succ fuel ih =>
    unfold fmtDigits
    split
    · exact ih _ _
    · simp

theorem digitsValue_append (acc : Nat) (xs ys : List Char) :
    digitsValue acc (xs ++ ys) = (digitsValue acc xs).bind (fun a => digitsValue a ys) := by
  induction xs generalizing acc with
  | nil => rfl
  | cons c xs ih =>
    simp only [List.cons_append, digitsValue]
    split
    · exact ih _
    · rfl

theorem digitsValue_fmtDigits (fuel u : Nat) (h : u ≤ fuel) :
    digitsValue 0 (fmtDigits fuel u []) = some u := by
  induction fuel generalizing u with
  | zero =>
    have : u = 0 := by omega
    subst this
    decide
  | succ fuel ih =>
    unfold fmtDigits
    split
    · rename_i h10
      have hlt : u - u / 10 * 10 < 10 := by omega
      rw [fmtDigits_buf, digitsValue_append, ih (u / 10) (by omega)]
      simp only [Option.some_bind, digitsValue, (digit_char _ hlt).1, (digit_char _ hlt).2,
        if_true]
      congr 1
      omega
    · have hlt : u < 10 := by omega
      simp only [digitsValue, (digit_char _ hlt).1, (digit_char _ hlt).2, if_true]
      congr 1
      omega

theorem digitsValue_head (c : Char) (rest : List Char) (v : Nat)
    (h : digitsValue 0 (c :: rest) = some v) : c ≠ minus := by
  intro hc
  subst hc
  simp [digitsValue, show isDigit minus = false by decide] at h

/-- Reading the numeral that `Sprintf_d` wrote gives the number back. -/
theorem intValue_Sprintf_d (n : Int) : intValue (Sprintf_d n) = some n := by
  have hv := digitsValue_fmtDigits n.natAbs n.natAbs (le_refl _)
  have hne := fmtDigits_ne_nil n.natAbs n.natAbs []
  unfold Sprintf_d
  split
  · rename_i hneg
    cases hl : fmtDigits n.natAbs n.natAbs [] with
    | nil => exact absurd hl hne
    | cons c rest =>
      rw [hl] at hv
      simp only [intValue, if_true, hv, Option.some.injEq, Int.ofNat_eq_coe]
      omega
  · rename_i hpos
    cases hl : fmtDigits n.natAbs n.natAbs [] with
    | nil => exact absurd hl hne
    | cons c rest =>
      rw [hl] at hv
      simp only [intValue, if_neg (digitsValue_head c rest _ hv), hv, Option.some.injEq,
        Int.ofNat_eq_coe]
      omega

theorem Sprintf_d_injective (a b : Int) (h : Sprintf_d a = Sprintf_d b) : a = b := by
  have ha := intValue_Sprintf_d a
  rw [h, intValue_Sprintf_d] at ha
  exact (Option.some.inj ha).symm

theorem sessionID_injective (a b : Int) (h : sessionID a = sessionID b) : a = b := by
  apply Sprintf_d_injective
  have : (sessionID a).data = (sessionID b).data := by rw [h]
  exact this

/-! ## The handlers, case by case -/

theorem handleCallback_ok (r : Request) (idp : Provider) (env : CallbackEnv) (st : Store)
    (u : User) (hu : fetchUser r idp = Except.ok u) (hset : env.set.fault = none) :
    handleCallback r idp env st =
      (⟨StatusSeeOther, "", [⟨"session", sessionID env.now, env.cookieNow + 1 * Hour⟩],
          some "/"⟩,
        ⟨sessionKey (sessionID env.now), String.mk (Marshal u), env.set.time + Hour⟩ ::
          st.unset (sessionKey (sessionID env.now))) := by
  simp [handleCallback, hu, createSession, Store.Set, hset]

theorem handleCallback_fault (r : Request) (idp : Provider) (env : CallbackEnv) (st : Store)
    (u : User) (msg : String) (hu : fetchUser r idp = Except.ok u)
    (hset : env.set.fault = some msg) :
    handleCallback r idp env st =
      (httpError "failed to store session" StatusInternalServerError, st) := by
  simp [handleCallback, hu, createSession, Store.Set, hset]

theorem handleCallback_noUser (r : Request) (idp : Provider) (env : CallbackEnv) (st : Store)
    (resp : Response) (hu : fetchUser r idp = Except.error resp) :
    handleCallback r idp env st = (resp, st) := by
  simp [handleCallback, hu]

theorem fetchUser_error_cookies (r : Request) (idp : Provider) (resp : Response)
    (hu : fetchUser r idp = Except.error resp) : resp.cookies = [] ∧ resp.location = none := by
  unfold fetchUser at hu
  simp only at hu
  split at hu
  · cases hu; exact ⟨rfl, rfl⟩
  · split at hu
    · cases hu; exact ⟨rfl, rfl⟩
    · split at hu
      · cases hu; exact ⟨rfl, rfl⟩
      · split at hu
        · cases hu; exact ⟨rfl, rfl⟩
        · cases hu

theorem getUser_of_resolve_none (r : Request) (st : Store) (c : Call)
    (h : ∀ v, r.Cookie "session" = some v → st.resolve (sessionKey v) c.time = none) :
    getUser r st c = (User.zero, false) := by
  unfold getUser
  cases hc : r.Cookie "session" with
  | none => rfl
  | some v =>
    simp only [Store.Get, h v hc]
    cases c.fault <;> rfl

theorem resolve_of_lookup_none (st : Store) (key : String) (now : Int)
    (h : st.lookup key = none) : st.resolve key now = none := by
  simp [Store.resolve, h]

/-! ## C1: round trip -/

/-- C1: when `handleCallback` has obtained the identity `u`, its `Set`
succeeds and it returns the session id `s` in the cookie, then `getUser` on
a request carrying `session=s`, served from the resulting store before the
hour has elapsed, returns `(u, true)`: the value under the key of `s` is the
JSON of `u`, and decoding it yields exactly `u`. -/
theorem session_round_trip (r : Request) (idp : Provider) (env : CallbackEnv) (st : Store)
    (u : User) (s : String) (r2 : Request) (c : Call)
    (hu : fetchUser r idp = Except.ok u)
    (hset : env.set.fault = none)
    (hs : ∃ ck ∈ (handleCallback r idp env st).1.cookies, ck.Name = "session" ∧ ck.Value = s)
    (hr2 : r2.Cookie "session" = some s)
    (hget : c.fault = none)
    (hlive : c.time < env.set.time + Hour) :
    getUser r2 (handleCallback r idp env st).2 c = (u, true) ∧
    (handleCallback r idp env st).2.resolve (sessionKey s) c.time =
      some (String.mk (Marshal u)) ∧
    Unmarshal (String.mk (Marshal u)).toList User.zero = (u, none) := by
  rw [handleCallback_ok r idp env st u hu hset] at hs ⊢
  obtain ⟨ck, hmem, -, hval⟩ := hs
  simp only [List.mem_singleton] at hmem
  subst hmem
  simp only at hval
  subst hval
  have hres : Store.resolve
      (⟨sessionKey (sessionID env.now), String.mk (Marshal u), env.set.time + Hour⟩ ::
        Store.unset st (sessionKey (sessionID env.now)))
      (sessionKey (sessionID env.now)) c.time = some (String.mk (Marshal u)) := by
    have : ¬ env.set.time + Hour < c.time := by omega
    simp [Store.resolve, Store.lookup, this]
  refine ⟨?_, hres, Unmarshal_Marshal u User.zero⟩
  unfold getUser
  simp only [hr2, Store.Get, hget, hres]
  have := Unmarshal_Marshal u User.zero
  simp only [String.toList] at this ⊢
  rw [this]

/-- A session created for `bob` at a realistic clock reading resolves to
`bob` ten nanoseconds later. -/
theorem session_round_trip_witness :
    getUser (cookieRequest "1700000000000000005")
      (handleCallback demoRequest (demoProvider bob)
        ⟨1700000000000000005, 1700000000000000007, served 10⟩ []).2 (served 20) =
      (bob, true) :=
  (session_round_trip demoRequest (demoProvider bob)
    ⟨1700000000000000005, 1700000000000000007, served 10⟩ [] bob "1700000000000000005"
    (cookieRequest "1700000000000000005") (served 20)
    rfl (by decide) ⟨_, List.mem_singleton.mpr rfl, by decide, by decide⟩
    (by decide) (by decide) (by decide)).1

/-! ## C2: destroy, then resolve -/

/-- C2, as stated, fails: a session resolves to `alice`; `handleLogout` runs
on a request carrying its id while the `Del` is refused, clears the cookie
and redirects as always; `getUser` on a request carrying the id still
returns `alice`. -/
theorem refused_del_still_resolves :
    getUser (cookieRequest "5")
        (handleCallback demoRequest (demoProvider alice) ⟨5, 7, served 10⟩ []).2 (served 20) =
      (alice, true) ∧
    (handleLogout (cookieRequest "5")
        (handleCallback demoRequest (demoProvider alice) ⟨5, 7, served 10⟩ []).2
        (refused 15)).1 = ⟨303, "", [⟨"session", "", 0⟩], some "/"⟩ ∧
    getUser (cookieRequest "5")
        (handleLogout (cookieRequest "5")
          (handleCallback demoRequest (demoProvider alice) ⟨5, 7, served 10⟩ []).2
          (refused 15)).2
        (served 20) = (alice, true) := by
  decide

/-- C2, amended: for every store and every session id `s`, after
`handleLogout` has run on a request carrying `session=s` and the store has
executed its `Del`, `getUser` on a request carrying `session=s` returns
`(User{}, false)`, whatever the outcome of its read. -/
theorem logout_then_absent (st : Store) (s : String) (r r2 : Request) (del c : Call)
    (h1 : r.Cookie "session" = some s) (h2 : r2.Cookie "session" = some s)
    (hdel : del.fault = none) :
    getUser r2 (handleLogout r st del).2 c = (User.zero, false) := by
  apply getUser_of_resolve_none
  intro v hv
  rw [h2] at hv
  cases hv
  apply resolve_of_lookup_none
  simp only [handleLogout, h1, Del_served _ _ _ hdel]
  exact lookup_unset_self st _

/-- A session that resolves to `alice` no longer resolves after a logout
whose `Del` the store executes. -/
theorem logout_then_absent_witness :
    getUser (cookieRequest "5")
        (handleCallback demoRequest (demoProvider alice) ⟨5, 7, served 10⟩ []).2 (served 20) =
      (alice, true) ∧
    getUser (cookieRequest "5")
        (handleLogout (cookieRequest "5")
          (handleCallback demoRequest (demoProvider alice) ⟨5, 7, served 10⟩ []).2
          (served 15)).2
        (served 20) = (User.zero, false) :=
  ⟨by decide, logout_then_absent _ "5" (cookieRequest "5") (cookieRequest "5") (served 15)
    (served 20) (by decide) (by decide) (by decide)⟩

/-! ## C3: a read error is a logged-out visitor -/

/-- C3: for every request, when the read of the session key ends in an
error, the not-found signal `redis.Nil` or any other error, `getUser`
returns `(User{}, false)`: never `true`, and the same answer for both. -/
theorem getUser_read_error (r : Request) (st : Store) (c : Call)
    (herr : ∀ v, r.Cookie "session" = some v →
      st.Get (sessionKey v) c = GetResult.Nil ∨
      ∃ msg, st.Get (sessionKey v) c = GetResult.error msg) :
    getUser r st c = (User.zero, false) := by
  unfold getUser
  cases hc : r.Cookie "session" with
  | none => rfl
  | some v =>
    rcases herr v hc with h | ⟨msg, h⟩ <;> simp only [h]

/-- The same live session, read once with the store serving and once with
the connection refused. -/
theorem getUser_read_error_witness :
    getUser (cookieRequest "5")
        (handleCallback demoRequest (demoProvider alice) ⟨5, 7, served 10⟩ []).2 (served 20) =
      (alice, true) ∧
    getUser (cookieRequest "5")
        (handleCallback demoRequest (demoProvider alice) ⟨5, 7, served 10⟩ []).2 (refused 20) =
      (User.zero, false) :=
  ⟨by decide, getUser_read_error _ _ (refused 20) (fun v _ => Or.inr ⟨_, rfl⟩)⟩

/-! ## C5: a value that does not decode -/

/-- C5, as stated, fails: the stored values `null`, the empty object and an
object with an unknown member only are not serialized users, yet
`json.Unmarshal` accepts them without filling a field, and `getUser` returns
the zero-valued identity with `true`. -/
theorem accepted_value_zero_user :
    getUser (cookieRequest "5") [⟨sessionKey "5", "null", Hour⟩] (served 20) =
      (User.zero, true) ∧
    getUser (cookieRequest "5") [⟨sessionKey "5", "\x7b\x7d", Hour⟩] (served 20) =
      (User.zero, true) ∧
    getUser (cookieRequest "5") [⟨sessionKey "5", "\x7b\"foo\":1\x7d", Hour⟩] (served 20) =
      (User.zero, true) := by
  decide

/-- C5, amended: for every session id `s` and every value stored under its
key, when `json.Unmarshal` rejects the value (a syntax error or a type
error), `getUser` returns `(User{}, false)` whatever the outcome of the
read, exactly its answer when the key is missing, and not the fields the
decoder had filled before the error; when `json.Unmarshal` accepts the
value, the read is served and the record is live, `getUser` returns the
record as decoded with `true`. -/
theorem getUser_stored_value (r : Request) (st : Store) (c : Call) (s : String) (e : Entry)
    (hc : r.Cookie "session" = some s)
    (hst : st.lookup (sessionKey s) = some e) :
    ((Unmarshal e.value.toList User.zero).2 ≠ none →
      getUser r st c = (User.zero, false) ∧
      ∀ st0 : Store, st0.lookup (sessionKey s) = none →
        getUser r st0 c = getUser r st c) ∧
    (∀ user : User, Unmarshal e.value.toList User.zero = (user, none) →
      c.fault = none → ¬ e.expiresAt < c.time → getUser r st c = (user, true)) := by
  constructor
  · intro hbad
    have hmain : getUser r st c = (User.zero, false) := by
      unfold getUser
      simp only [hc, Store.Get, Store.resolve, hst]
      cases c.fault with
      | some err => rfl
      | none =>
        by_cases hexp : e.expiresAt < c.time
        · simp only [hexp, if_true]
        · simp only [hexp, if_false]
          cases hd : Unmarshal e.value.toList User.zero with
          | mk user err =>
            cases err with
            | none => rw [hd] at hbad; exact absurd rfl hbad
            | some _ => rfl
    refine ⟨hmain, ?_⟩
    intro st0 h0
    rw [hmain]
    apply getUser_of_resolve_none
    intro v hv
    rw [hc] at hv
    cases hv
    exact resolve_of_lookup_none _ _ _ h0
  · intro user hok hserved hlive
    unfold getUser
    simp only [hc, Store.Get, Store.resolve, hst, hserved, hlive, if_false, hok]

/-- A stored object with a number for the name: the decoder fills the email
and reports a type error; `getUser` returns the zero user with `false`. -/
theorem getUser_stored_value_witness :
    Unmarshal mistypedValue.toList User.zero =
      (⟨"a@x.com", "", ""⟩, some (JsonError.UnmarshalTypeError "number" "User.name")) ∧
    getUser (cookieRequest "5") [⟨sessionKey "5", mistypedValue, Hour⟩] (served 20) =
      (User.zero, false) ∧
    getUser (cookieRequest "5") [⟨sessionKey "5", String.mk (Marshal bob), Hour⟩]
      (served 20) = (bob, true) :=
  ⟨by decide,
    ((getUser_stored_value (cookieRequest "5") [⟨sessionKey "5", mistypedValue, Hour⟩]
      (served 20) "5" ⟨sessionKey "5", mistypedValue, Hour⟩ (by decide) (by decide)).1
      (by decide)).1,
    (getUser_stored_value (cookieRequest "5")
      [⟨sessionKey "5", String.mk (Marshal bob), Hour⟩]
      (served 20) "5" ⟨sessionKey "5", String.mk (Marshal bob), Hour⟩ (by decide)
      (by decide)).2 bob (by decide) (by decide) (by decide)⟩

/-! ## C9: destroying an absent session -/

/-- C9: when the store has no record under the key of the session id of the
request, or the request has no session cookie, `handleLogout` leaves the
store exactly as it was and completes as always, whatever the outcome of
its `Del`: the cookie `session` is set to the empty value with expiry at
Unix time 0 and the response is the redirect to `/` with status 303. When
the key only holds a record whose time-to-live has elapsed at `now`, every
key resolves from then on as it did before. -/
theorem logout_absent_noop (st : Store) (r : Request) (del : Call) :
    ((∀ s, r.Cookie "session" = some s → st.lookup (sessionKey s) = none) →
      handleLogout r st del = (⟨303, "", [⟨"session", "", 0⟩], some "/"⟩, st)) ∧
    (∀ now : Int, (∀ s, r.Cookie "session" = some s → st.resolve (sessionKey s) now = none) →
      (handleLogout r st del).1 = ⟨303, "", [⟨"session", "", 0⟩], some "/"⟩ ∧
      ∀ (k : String) (t : Int), now ≤ t →
        (handleLogout r st del).2.resolve k t = st.resolve k t) := by
  constructor
  · intro h
    unfold handleLogout
    cases hc : r.Cookie "session" with
    | none => rfl
    | some s =>
      simp only [Del_of_lookup_none st _ del (h s hc)]
      rfl
  · intro now h
    refine ⟨rfl, ?_⟩
    intro k t ht
    unfold handleLogout
    cases hc : r.Cookie "session" with
    | none => rfl
    | some s =>
      simp only
      cases hf : del.fault with
      | some msg => rw [Del_refused _ _ _ msg hf]
      | none =>
        rw [Del_served _ _ _ hf]
        by_cases hk : k = sessionKey s
        · subst hk
          have hdead := h s hc
          simp only [Store.resolve, lookup_unset_self] at hdead ⊢
          cases hl : st.lookup (sessionKey s) with
          | none => rfl
          | some e =>
            rw [hl] at hdead
            simp only at hdead ⊢
            by_cases hx : e.expiresAt < now
            · have : e.expiresAt < t := by omega
              simp [this]
            · simp [hx] at hdead
        · simp only [Store.resolve, lookup_unset_of_ne st _ k hk]

/-- A logout with an id the store does not know, and one without a cookie. -/
theorem logout_absent_noop_witness :
    handleLogout (cookieRequest "6")
        (handleCallback demoRequest (demoProvider alice) ⟨5, 7, served 10⟩ []).2 (served 15) =
      (⟨303, "", [⟨"session", "", 0⟩], some "/"⟩,
        (handleCallback demoRequest (demoProvider alice) ⟨5, 7, served 10⟩ []).2) ∧
    handleLogout plainRequest
        (handleCallback demoRequest (demoProvider alice) ⟨5, 7, served 10⟩ []).2 (served 15) =
      (⟨303, "", [⟨"session", "", 0⟩], some "/"⟩,
        (handleCallback demoRequest (demoProvider alice) ⟨5, 7, served 10⟩ []).2) :=
  ⟨(logout_absent_noop _ (cookieRequest "6") (served 15)).1 (by decide),
    (logout_absent_noop _ plainRequest (served 15)).1 (by decide)⟩

/-! ## C4: a failed write -/

/-- C4, as stated, fails: after a creation at the clock reading 5 has
stored a session, a second run of `handleCallback` at the same clock
reading whose `Set` reports an error answers 500 without a cookie, and yet
the store holds a record, still resolving, for the session id it
generated. -/
theorem failed_write_record_present :
    (handleCallback demoRequest (demoProvider bob) ⟨5, 8, refused 10⟩
        (handleCallback demoRequest (demoProvider alice) ⟨5, 7, served 0⟩ []).2).1 =
      httpError "failed to store session" 500 ∧
    (handleCallback demoRequest (demoProvider bob) ⟨5, 8, refused 10⟩
        (handleCallback demoRequest (demoProvider alice) ⟨5, 7, served 0⟩ []).2).2.lookup
        (sessionKey (sessionID 5)) =
      some ⟨sessionKey (sessionID 5), String.mk (Marshal alice), Hour⟩ ∧
    getUser (cookieRequest (sessionID 5))
        (handleCallback demoRequest (demoProvider bob) ⟨5, 8, refused 10⟩
          (handleCallback demoRequest (demoProvider alice) ⟨5, 7, served 0⟩ []).2).2
        (served 20) = (alice, true) := by
  decide

/-- C4, amended: whenever the `Set` for the new session reports an error,
`handleCallback` answers with status 500 and the text "failed to store
session", sets no cookie, issues no redirect and leaves the store exactly
as it was, so that the store holds a record for the generated session id
only if it held one before; and a response of `handleCallback` carries a
cookie only if the `Set` succeeded. -/
theorem failed_write_not_logged_in :
    (∀ (r : Request) (idp : Provider) (env : CallbackEnv) (st : Store) (u : User)
        (msg : String), fetchUser r idp = Except.ok u → env.set.fault = some msg →
      (handleCallback r idp env st).1 = ⟨500, "failed to store session\n", [], none⟩ ∧
      (handleCallback r idp env st).2 = st ∧
      (st.lookup (sessionKey (sessionID env.now)) = none →
        (handleCallback r idp env st).2.lookup (sessionKey (sessionID env.now)) = none)) ∧
    (∀ (r : Request) (idp : Provider) (env : CallbackEnv) (st : Store),
      (handleCallback r idp env st).1.cookies ≠ [] →
        env.set.fault = none ∧ (handleCallback r idp env st).1.status = 303) := by
  constructor
  · intro r idp env st u msg hu hset
    rw [handleCallback_fault r idp env st u msg hu hset]
    exact ⟨rfl, rfl, fun h => h⟩
  · intro r idp env st hck
    cases hu : fetchUser r idp with
    | error resp =>
      rw [handleCallback_noUser r idp env st resp hu] at hck
      exact absurd (fetchUser_error_cookies r idp resp hu).1 hck
    | ok u =>
      cases hset : env.set.fault with
      | some msg =>
        rw [handleCallback_fault r idp env st u msg hu hset] at hck
        exact absurd rfl hck
      | none =>
        rw [handleCallback_ok r idp env st u hu hset]
        exact ⟨rfl, rfl⟩

/-- A creation on the empty store whose `Set` is refused. -/
theorem failed_write_not_logged_in_witness :
    (handleCallback demoRequest (demoProvider alice) ⟨5, 7, refused 10⟩ []).1 =
      ⟨500, "failed to store session\n", [], none⟩ ∧
    (handleCallback demoRequest (demoProvider alice) ⟨5, 7, refused 10⟩ []).2 = [] :=
  ⟨(failed_write_not_logged_in.1 demoRequest (demoProvider alice) ⟨5, 7, refused 10⟩ []
      alice _ rfl rfl).1,
    (failed_write_not_logged_in.1 demoRequest (demoProvider alice) ⟨5, 7, refused 10⟩ []
      alice _ rfl rfl).2.1⟩

/-! ## C6: uniqueness of the identifier -/

/-- C6, as stated, fails: two creations for different identities at the
same clock reading return the same session id, and the second overwrites
the record of the first while it is live. -/
theorem same_reading_same_id :
    alice ≠ bob ∧
    sessionCookies (handleCallback demoRequest (demoProvider alice) ⟨5, 7, served 0⟩ []).1 =
      ["5"] ∧
    sessionCookies (handleCallback demoRequest (demoProvider bob) ⟨5, 8, served 10⟩
        (handleCallback demoRequest (demoProvider alice) ⟨5, 7, served 0⟩ []).2).1 = ["5"] ∧
    getUser (cookieRequest "5")
        (handleCallback demoRequest (demoProvider alice) ⟨5, 7, served 0⟩ []).2 (served 20) =
      (alice, true) ∧
    getUser (cookieRequest "5")
        (handleCallback demoRequest (demoProvider bob) ⟨5, 8, served 10⟩
          (handleCallback demoRequest (demoProvider alice) ⟨5, 7, served 0⟩ []).2).2
        (served 20) = (bob, true) := by
  decide

/-- C6, amended: two creations whose clock readings differ return
different session ids, whatever the identities, and the second leaves the
record of the first untouched; two creations with the same clock reading
return the same id. -/
theorem distinct_readings_distinct_ids (r1 r2 : Request) (idp1 idp2 : Provider)
    (env1 env2 : CallbackEnv) (st : Store) (u1 u2 : User)
    (hu1 : fetchUser r1 idp1 = Except.ok u1) (hu2 : fetchUser r2 idp2 = Except.ok u2)
    (hset1 : env1.set.fault = none) (hset2 : env2.set.fault = none) :
    sessionCookies (handleCallback r1 idp1 env1 st).1 = [sessionID env1.now] ∧
    sessionCookies (handleCallback r2 idp2 env2 (handleCallback r1 idp1 env1 st).2).1 =
      [sessionID env2.now] ∧
    (sessionID env1.now = sessionID env2.now ↔ env1.now = env2.now) ∧
    (env1.now ≠ env2.now →
      (handleCallback r2 idp2 env2 (handleCallback r1 idp1 env1 st).2).2.lookup
          (sessionKey (sessionID env1.now)) =
        some ⟨sessionKey (sessionID env1.now), String.mk (Marshal u1),
          env1.set.time + Hour⟩) := by
  have hinj : sessionID env1.now = sessionID env2.now ↔ env1.now = env2.now :=
    ⟨sessionID_injective _ _, fun h => by rw [h]⟩
  refine ⟨?_, ?_, hinj, ?_⟩
  · rw [handleCallback_ok r1 idp1 env1 st u1 hu1 hset1]
    simp [sessionCookies]
  · rw [handleCallback_ok r2 idp2 env2 _ u2 hu2 hset2]
    simp [sessionCookies]
  · intro hne
    have hk : sessionKey (sessionID env1.now) ≠ sessionKey (sessionID env2.now) :=
      fun h => hne (sessionID_injective _ _ (sessionKey_injective _ _ h))
    rw [handleCallback_ok r2 idp2 env2 _ u2 hu2 hset2]
    rw [handleCallback_ok r1 idp1 env1 st u1 hu1 hset1]
    simp only
    have h2 := lookup_Set_of_ne
      (⟨sessionKey (sessionID env1.now), String.mk (Marshal u1), env1.set.time + Hour⟩ ::
        Store.unset st (sessionKey (sessionID env1.now)))
      (sessionKey (sessionID env2.now)) (String.mk (Marshal u2)) Hour env2.set
      (sessionKey (sessionID env1.now)) hk
    simp only [Store.Set, hset2] at h2
    rw [h2]
    simp [Store.lookup]

/-- Creations at the readings 5 and 6: two ids, and the record of the first
is still in place after the second. -/
theorem distinct_readings_distinct_ids_witness :
    sessionCookies (handleCallback demoRequest (demoProvider alice) ⟨5, 7, served 0⟩ []).1 =
      [sessionID 5] ∧
    sessionCookies (handleCallback demoRequest (demoProvider bob) ⟨6, 8, served 10⟩
        (handleCallback demoRequest (demoProvider alice) ⟨5, 7, served 0⟩ []).2).1 =
      [sessionID 6] ∧
    (handleCallback demoRequest (demoProvider bob) ⟨6, 8, served 10⟩
        (handleCallback demoRequest (demoProvider alice) ⟨5, 7, served 0⟩ []).2).2.lookup
        (sessionKey (sessionID 5)) =
      some ⟨sessionKey (sessionID 5), String.mk (Marshal alice), 0 + Hour⟩ :=
  have h := distinct_readings_distinct_ids demoRequest demoRequest (demoProvider alice)
    (demoProvider bob) ⟨5, 7, served 0⟩ ⟨6, 8, served 10⟩ [] alice bob rfl rfl rfl rfl
  ⟨h.1, h.2.1, h.2.2.2 (by decide)⟩

/-! ## Runs: which keys a store can hold -/

theorem mem_unset (st : Store) (key : String) (e : Entry) (h : e ∈ st.unset key) : e ∈ st :=
  (List.mem_filter.mp h).1

theorem mem_Del (st : Store) (key : String) (c : Call) (e : Entry)
    (h : e ∈ st.Del key c) : e ∈ st := by
  unfold Store.Del at h
  cases hf : c.fault with
  | some msg => rw [hf] at h; exact h
  | none => rw [hf] at h; exact mem_unset st key e h

theorem step_mem (st : Store) (op : Op) (e : Entry) (h : e ∈ (step st op).2) :
    e ∈ st ∨ ∃ s ∈ issued st [op], e.key = sessionKey s := by
  cases op with
  | logout r del =>
    left
    simp only [step, handleLogout] at h
    cases hc : r.Cookie "session" with
    | none => simpa [hc] using h
    | some v =>
      rw [hc] at h
      exact mem_Del _ _ _ _ h
  | callback r idp env =>
    simp only [step] at h
    cases hu : fetchUser r idp with
    | error resp =>
      rw [handleCallback_noUser r idp env st resp hu] at h
      exact Or.inl h
    | ok u =>
      cases hset : env.set.fault with
      | some msg =>
        rw [handleCallback_fault r idp env st u msg hu hset] at h
        exact Or.inl h
      | none =>
        rw [handleCallback_ok r idp env st u hu hset] at h
        rcases List.mem_cons.mp h with h | h
        · right
          refine ⟨sessionID env.now, ?_, by rw [h]⟩
          simp [issued, handleCallback_ok r idp env st u hu hset, sessionCookies]
        · exact Or.inl (mem_unset _ _ _ h)

theorem issued_cons (st : Store) (op : Op) (ops : List Op) :
    issued st (op :: ops) = issued st [op] ++ issued (step st op).2 ops := by
  cases op <;> simp [issued, step]

theorem run_mem (st : Store) (ops : List Op) (e : Entry) (h : e ∈ run st ops) :
    e ∈ st ∨ ∃ s ∈ issued st ops, e.key = sessionKey s := by
  induction ops generalizing st with
  | nil => exact Or.inl h
  | cons op ops ih =>
    rw [issued_cons]
    rcases ih (step st op).2 h with h1 | ⟨s, hs, hk⟩
    · rcases step_mem st op e h1 with h2 | ⟨s, hs, hk⟩
      · exact Or.inl h2
      · exact Or.inr ⟨s, List.mem_append_left _ hs, hk⟩
    · exact Or.inr ⟨s, List.mem_append_right _ hs, hk⟩

theorem step_lookup_sub (t : Int) (st : Store) (op : Op) (e : Entry)
    (hop : op.issues t = false)
    (h : (step st op).2.lookup (sessionKey (sessionID t)) = some e) :
    st.lookup (sessionKey (sessionID t)) = some e := by
  cases op with
  | logout r del =>
    simp only [step, handleLogout] at h
    cases hc : r.Cookie "session" with
    | none => simpa [hc] using h
    | some v =>
      rw [hc] at h
      exact lookup_Del_sub _ _ _ _ _ h
  | callback r idp env =>
    simp only [step] at h
    cases hu : fetchUser r idp with
    | error resp =>
      rwa [handleCallback_noUser r idp env st resp hu] at h
    | ok u =>
      cases hset : env.set.fault with
      | some msg =>
        rwa [handleCallback_fault r idp env st u msg hu hset] at h
      | none =>
        have hne : env.now ≠ t := by
          intro heq
          simp [Op.issues, hu, hset, heq] at hop
        have hk : sessionKey (sessionID t) ≠ sessionKey (sessionID env.now) :=
          fun hh => hne (sessionID_injective _ _ (sessionKey_injective _ _ hh)).symm
        have h2 := lookup_Set_of_ne st (sessionKey (sessionID env.now)) (String.mk (Marshal u))
          Hour env.set (sessionKey (sessionID t)) hk
        rw [handleCallback_ok r idp env st u hu hset] at h
        simp only [Store.Set, hset] at h2
        rw [← h2]
        exact h

theorem run_lookup_sub (t : Int) (st : Store) (ops : List Op) (e : Entry)
    (hops : ∀ op ∈ ops, op.issues t = false)
    (h : (run st ops).lookup (sessionKey (sessionID t)) = some e) :
    st.lookup (sessionKey (sessionID t)) = some e := by
  induction ops generalizing st with
  | nil => exact h
  | cons op ops ih =>
    have h1 := ih (step st op).2 (fun o ho => hops o (List.mem_cons_of_mem _ ho)) h
    exact step_lookup_sub t st op e (hops op (List.mem_cons_self _ _)) h1

/-! ## C7: expiry -/

/-- C7, as stated, fails: a second creation for the same user at the same
clock reading, ten nanoseconds later on the clock of the store, moves the
instant at which the record of the session ends from one hour to one hour
and ten nanoseconds, and `getUser` at one hour and five nanoseconds after the first
creation still returns the user. -/
theorem reissue_extends_lifetime :
    (handleCallback demoRequest (demoProvider alice) ⟨5, 7, served 0⟩ []).2.lookup
        (sessionKey (sessionID 5)) =
      some ⟨sessionKey (sessionID 5), String.mk (Marshal alice), Hour⟩ ∧
    (handleCallback demoRequest (demoProvider alice) ⟨5, 8, served 10⟩
        (handleCallback demoRequest (demoProvider alice) ⟨5, 7, served 0⟩ []).2).2.lookup
        (sessionKey (sessionID 5)) =
      some ⟨sessionKey (sessionID 5), String.mk (Marshal alice), Hour + 10⟩ ∧
    getUser (cookieRequest (sessionID 5))
        (handleCallback demoRequest (demoProvider alice) ⟨5, 8, served 10⟩
          (handleCallback demoRequest (demoProvider alice) ⟨5, 7, served 0⟩ []).2).2
        (served (Hour + 5)) = (alice, true) := by
  decide

/-- C7, amended: a successful creation writes the record of the session
with a time-to-live of exactly one hour; after any later runs of
`handleCallback` and `handleLogout` none of which issues the same id again,
the record under that id, if still there, ends at the same instant, and
`getUser` on a request carrying the id at any time more than one hour after
the creation returns `(User{}, false)`. -/
theorem session_expiry (r : Request) (idp : Provider) (env : CallbackEnv) (st : Store)
    (u : User) (post : List Op) (r2 : Request) (c : Call)
    (hu : fetchUser r idp = Except.ok u)
    (hset : env.set.fault = none)
    (hpost : ∀ op ∈ post, op.issues env.now = false)
    (hr2 : r2.Cookie "session" = some (sessionID env.now))
    (hlate : env.set.time + Hour < c.time) :
    (handleCallback r idp env st).2.lookup (sessionKey (sessionID env.now)) =
      some ⟨sessionKey (sessionID env.now), String.mk (Marshal u), env.set.time + Hour⟩ ∧
    (∀ e, (run (handleCallback r idp env st).2 post).lookup (sessionKey (sessionID env.now)) =
      some e → e.expiresAt = env.set.time + Hour) ∧
    getUser r2 (run (handleCallback r idp env st).2 post) c = (User.zero, false) := by
  have h0 : (handleCallback r idp env st).2.lookup (sessionKey (sessionID env.now)) =
      some ⟨sessionKey (sessionID env.now), String.mk (Marshal u), env.set.time + Hour⟩ := by
    rw [handleCallback_ok r idp env st u hu hset]
    simp [Store.lookup]
  have h1 : ∀ e, (run (handleCallback r idp env st).2 post).lookup
      (sessionKey (sessionID env.now)) = some e → e.expiresAt = env.set.time + Hour := by
    intro e he
    have := run_lookup_sub env.now _ post e hpost he
    rw [h0] at this
    cases this
    rfl
  refine ⟨h0, h1, ?_⟩
  apply getUser_of_resolve_none
  intro v hv
  rw [hr2] at hv
  cases hv
  unfold Store.resolve
  cases hl : (run (handleCallback r idp env st).2 post).lookup (sessionKey (sessionID env.now)) with
  | none => rfl
  | some e =>
    have := h1 e hl
    simp only
    rw [if_pos (by omega)]

/-- A session created at store time 0, followed by another creation and a
logout of other ids: gone one nanosecond past the hour, still there at the
hour. -/
theorem session_expiry_witness :
    getUser (cookieRequest (sessionID 5))
        (run (handleCallback demoRequest (demoProvider alice) ⟨5, 7, served 0⟩ []).2
          [Op.callback demoRequest (demoProvider bob) ⟨6, 8, served 10⟩,
           Op.logout (cookieRequest "6") (served 12)])
        (served (Hour + 1)) = (User.zero, false) ∧
    getUser (cookieRequest (sessionID 5))
        (run (handleCallback demoRequest (demoProvider alice) ⟨5, 7, served 0⟩ []).2
          [Op.callback demoRequest (demoProvider bob) ⟨6, 8, served 10⟩,
           Op.logout (cookieRequest "6") (served 12)])
        (served Hour) = (alice, true) :=
  ⟨(session_expiry demoRequest (demoProvider alice) ⟨5, 7, served 0⟩ [] alice
      [Op.callback demoRequest (demoProvider bob) ⟨6, 8, served 10⟩,
       Op.logout (cookieRequest "6") (served 12)]
      (cookieRequest (sessionID 5)) (served (Hour + 1)) rfl rfl (by decide) (by decide)
      (by decide)).2.2,
    by decide⟩

/-! ## C8: identifiers that were never issued -/

/-- C8: starting from the empty store, after any sequence of runs of
`handleCallback` and `handleLogout`, `getUser` on a request carrying a
session id that no creation of the sequence has returned gives
`(User{}, false)`; and on a request without a session cookie it gives
`(User{}, false)` for every store and every outcome of a read. -/
theorem unissued_absent :
    (∀ (ops : List Op) (s : String) (r : Request) (c : Call),
      s ∉ issued [] ops → r.Cookie "session" = some s →
      getUser r (run [] ops) c = (User.zero, false)) ∧
    (∀ (r : Request) (st : Store) (c : Call),
      r.Cookie "session" = none → getUser r st c = (User.zero, false)) := by
  constructor
  · intro ops s r c hs hr
    apply getUser_of_resolve_none
    intro v hv
    rw [hr] at hv
    cases hv
    apply resolve_of_lookup_none
    cases hl : (run [] ops).lookup (sessionKey s) with
    | none => rfl
    | some e =>
      exfalso
      rcases run_mem [] ops e (lookup_mem _ _ _ hl) with h | ⟨s2, hs2, hk⟩
      · cases h
      · rw [lookup_key _ _ _ hl] at hk
        exact hs (sessionKey_injective _ _ hk ▸ hs2)
  · intro r st c hr
    simp [getUser, hr]

/-- A run with one successful creation, one refused creation and a logout:
only the id 5 was issued, and the id 6 of the refused creation does not
resolve. -/
theorem unissued_absent_witness :
    issued []
        [Op.callback demoRequest (demoProvider alice) ⟨5, 7, served 0⟩,
         Op.callback demoRequest (demoProvider bob) ⟨6, 8, refused 10⟩,
         Op.logout (cookieRequest "7") (refused 12)] = ["5"] ∧
    getUser (cookieRequest "6")
        (run []
          [Op.callback demoRequest (demoProvider alice) ⟨5, 7, served 0⟩,
           Op.callback demoRequest (demoProvider bob) ⟨6, 8, refused 10⟩,
           Op.logout (cookieRequest "7") (refused 12)]) (served 20) = (User.zero, false) ∧
    getUser plainRequest
        (run []
          [Op.callback demoRequest (demoProvider alice) ⟨5, 7, served 0⟩]) (served 20) =
      (User.zero, false) :=
  ⟨by decide,
    unissued_absent.1
      [Op.callback demoRequest (demoProvider alice) ⟨5, 7, served 0⟩,
       Op.callback demoRequest (demoProvider bob) ⟨6, 8, refused 10⟩,
       Op.logout (cookieRequest "7") (refused 12)] "6" (cookieRequest "6") (served 20)
      (by decide) (by decide),
    unissued_absent.2 plainRequest _ (served 20) (by decide)⟩

/-! ## C10: the identifier is the clock reading -/

/-- C10: the session id that `handleCallback` returns is the decimal
numeral of the clock reading of line 123, whatever the identity, the
request and the store; the numeral denotes that reading, so the id issued
at an earlier reading denotes a strictly smaller integer, and two ids are
equal exactly when the readings are. -/
theorem sessionID_timestamp :
    (∀ (r : Request) (idp : Provider) (env : CallbackEnv) (st : Store) (u : User),
      fetchUser r idp = Except.ok u → env.set.fault = none →
      sessionCookies (handleCallback r idp env st).1 = [String.mk (Sprintf_d env.now)]) ∧
    (∀ t : Int, intValue (sessionID t).toList = some t) ∧
    (∀ t1 t2 : Int, t1 < t2 →
      ∃ v1 v2, intValue (sessionID t1).toList = some v1 ∧
        intValue (sessionID t2).toList = some v2 ∧ v1 < v2) ∧
    (∀ t1 t2 : Int, sessionID t1 = sessionID t2 ↔ t1 = t2) := by
  refine ⟨?_, ?_, ?_, ?_⟩
  · intro r idp env st u hu hset
    rw [handleCallback_ok r idp env st u hu hset]
    simp [sessionCookies, sessionID]
  · intro t
    exact intValue_Sprintf_d t
  · intro t1 t2 h
    exact ⟨t1, t2, intValue_Sprintf_d t1, intValue_Sprintf_d t2, h⟩
  · intro t1 t2
    exact ⟨sessionID_injective _ _, fun h => by rw [h]⟩

/-- Two creations for different users and stores at the same clock reading
return the numeral of that reading. -/
theorem sessionID_timestamp_witness :
    sessionCookies (handleCallback demoRequest (demoProvider alice)
        ⟨1700000000000000005, 7, served 0⟩ []).1 = ["1700000000000000005"] ∧
    sessionCookies (handleCallback demoRequest (demoProvider bob)
        ⟨1700000000000000005, 9, served 3⟩ [⟨"session:1", "x", 0⟩]).1 =
      ["1700000000000000005"] :=
  ⟨(sessionID_timestamp.1 demoRequest (demoProvider alice)
      ⟨1700000000000000005, 7, served 0⟩ [] alice rfl rfl).trans (by decide),
    (sessionID_timestamp.1 demoRequest (demoProvider bob)
      ⟨1700000000000000005, 9, served 3⟩ [⟨"session:1", "x", 0⟩] bob rfl rfl).trans
      (by decide)⟩

end SocialLogin
